import Mathlib

/-!
Verification development for the caching and metrics subsystem
(`src/api/script/redis-manager.ts`) of the code-push-server repository.

The TypeScript component is shallowly embedded: the Redis store is modelled
as an explicit state (association lists from keys to hashes, a plain
key/value table and a TTL table), each public operation of `RedisManager`
becomes a pure function from the manager state to a result, a new state and
the list of store commands it issued, and the promise chains of the source
become sequential composition.  External primitives that the source calls
but that are not part of the repository (the Redis command semantics and the
platform JSON serialization) are modelled by executable Lean functions,
faithful to how the source and its specification use them.
-/

def alGet {β : Type} : List (String × β) → String → Option β
  | [], _ => none
  | (k, v) :: t, key => if k = key then some v else alGet t key

def alSet {β : Type} : List (String × β) → String → β → List (String × β)
  | [], key, val => [(key, val)]
  | (k, v) :: t, key, val => if k = key then (k, val) :: t else (k, v) :: alSet t key val

def alRemove {β : Type} : List (String × β) → String → List (String × β)
  | [], _ => []
  | (k, v) :: t, key => if k = key then t else (k, v) :: alRemove t key

def digitChar (n : Nat) : Char := Char.ofNat (48 + n)

def digitVal (c : Char) : Nat := c.toNat - 48

/-- Fuelled little emitter for decimal digits; `fuel > n` suffices. -/
def emitNatAux : Nat → Nat → List Char
  | 0, _ => []
  | fuel + 1, n => if n < 10 then [digitChar n] else emitNatAux fuel (n / 10) ++ [digitChar (n % 10)]

def emitNat (n : Nat) : List Char := emitNatAux (n + 1) n

def emitInt (n : Int) : List Char :=
  if n < 0 then '-' :: emitNat n.natAbs else emitNat n.toNat

/-- The decimal string Redis would store for an integer counter. -/
def intToDecimal (n : Int) : String := String.mk (emitInt n)

/-- Greedy decimal reader: consumes leading digits, returns the value and the rest. -/
def parseDigits (acc : Nat) : List Char → Nat × List Char
  | [] => (acc, [])
  | c :: rest => if c.isDigit then parseDigits (acc * 10 + digitVal c) rest else (acc, c :: rest)

/-- Reading back the digits of a (possibly sign-prefixed) decimal string;
the whole input must be consumed. -/
def decimalDigitsToNat (cs : List Char) : Option Nat :=
  match cs with
  | [] => none
  | c :: t =>
    if c.isDigit then
      match parseDigits 0 (c :: t) with
      | (n, []) => some n
      | _ => none
    else none

/-- Sign handling for a stored decimal string. -/
def decCharsToInt (cs : List Char) : Option Int :=
  match cs with
  | [] => none
  | c :: t =>
    if c = '-' then (decimalDigitsToNat t).map (fun n => -(n : Int))
    else (decimalDigitsToNat (c :: t)).map (fun n => (n : Int))

mutual

inductive Json where
  | null : Json
  | jbool (b : Bool) : Json
  | jnum (n : Int) : Json
  | jstr (s : String) : Json
  | jarr (elems : JsonList) : Json
  | jobj (fields : JsonFields) : Json

inductive JsonList where
  | nil : JsonList
  | cons (hd : Json) (tl : JsonList) : JsonList

inductive JsonFields where
  | nil : JsonFields
  | cons (key : String) (val : Json) (tl : JsonFields) : JsonFields

end

def lbrace : Char := Char.ofNat 123

def rbrace : Char := Char.ofNat 125

/-- Escape one character for a JSON string literal. -/
def escChar (c : Char) : List Char :=
  if c = '"' ∨ c = '\\' then ['\\', c] else [c]

def escList : List Char → List Char
  | [] => []
  | c :: cs => escChar c ++ escList cs

mutual

def Json.emit : Json → List Char
  | .null => ['n', 'u', 'l', 'l']
  | .jbool true => ['t', 'r', 'u', 'e']
  | .jbool false => ['f', 'a', 'l', 's', 'e']
  | .jnum n => emitInt n
  | .jstr s => '"' :: (escList s.data ++ ['"'])
  | .jarr xs => '[' :: (JsonList.emitElems xs ++ [']'])
  | .jobj fs => lbrace :: (JsonFields.emitMembers fs ++ [rbrace])

def JsonList.emitElems : JsonList → List Char
  | .nil => []
  | .cons x .nil => Json.emit x
  | .cons x (.cons y tl) => Json.emit x ++ ',' :: JsonList.emitElems (.cons y tl)

def JsonFields.emitMembers : JsonFields → List Char
  | .nil => []
  | .cons k v .nil => '"' :: (escList k.data ++ '"' :: ':' :: Json.emit v)
  | .cons k v (.cons k2 v2 tl) =>
    ('"' :: (escList k.data ++ '"' :: ':' :: Json.emit v)) ++
      ',' :: JsonFields.emitMembers (.cons k2 v2 tl)

end

/-- Modelled from the spec: the platform JSON serializer (`JSON.stringify`). -/
def Json.stringify (j : Json) : String := String.mk (Json.emit j)

abbrev RedisHash := List (String × String)

inductive RedisCmd where
  | existsKey (key : String) : RedisCmd
  | hSet (key field value : String) : RedisCmd
  | hGet (key field : String) : RedisCmd
  | hGetAll (key : String) : RedisCmd
  | hIncrBy (key : String) (field : Option String) (delta : Int) : RedisCmd
  | hDel (key field : String) : RedisCmd
  | del (keys : List String) : RedisCmd
  | expire (key : String) (seconds : Nat) : RedisCmd
  | set (key value : String) : RedisCmd
  | select (db : Nat) : RedisCmd
  | ping : RedisCmd
  | quit : RedisCmd
  | multi (cmds : List RedisCmd) : RedisCmd

/-- One logical Redis database: hash keys, plain string keys, and the
per-key TTL table. -/
structure RedisDB where
  hashes : List (String × RedisHash)
  kv : List (String × String)
  ttl : List (String × Nat)

def RedisDB.empty : RedisDB := ⟨[], [], []⟩

def hGetDB (db : RedisDB) (key field : String) : Option String :=
  (alGet db.hashes key).bind (fun h => alGet h field)

def hSetDB (db : RedisDB) (key field value : String) : RedisDB :=
  { db with hashes := alSet db.hashes key (alSet ((alGet db.hashes key).getD []) field value) }

/-- Reading a decimal string back as an integer (entire string must be consumed). -/
def decimalToInt (s : String) : Option Int := decCharsToInt s.data

/-- `HINCRBY`.  A `none` field models the `null` field name produced by the
source's `Utilities` helpers for invalid labels/statuses; modelled from the
spec as a silently absorbed no-op.  A present field holding a non-integer
value makes the real command error while leaving the value unchanged; the
model leaves the database unchanged in that case. -/
def hIncrByDB (db : RedisDB) (key : String) (field : Option String) (delta : Int) : RedisDB :=
  match field with
  | none => db
  | some f =>
    let h := (alGet db.hashes key).getD []
    match alGet h f with
    | none => { db with hashes := alSet db.hashes key (alSet h f (intToDecimal delta)) }
    | some old =>
      match decimalToInt old with
      | none => db
      | some o => { db with hashes := alSet db.hashes key (alSet h f (intToDecimal (o + delta))) }

def existsKeyDB (db : RedisDB) (key : String) : Bool :=
  (alGet db.hashes key).isSome || (alGet db.kv key).isSome

def expireDB (db : RedisDB) (key : String) (seconds : Nat) : RedisDB :=
  { db with ttl := alSet db.ttl key seconds }

/-- Remove every entry whose key is listed in `ks` (the model of `DEL`). -/
def alDropKeys {β : Type} : List (String × β) → List String → List (String × β)
  | [], _ => []
  | (k, v) :: t, ks => if k ∈ ks then alDropKeys t ks else (k, v) :: alDropKeys t ks

def delDB (db : RedisDB) (keys : List String) : RedisDB :=
  { hashes := alDropKeys db.hashes keys, kv := alDropKeys db.kv keys,
    ttl := alDropKeys db.ttl keys }

def hGetAllDB (db : RedisDB) (key : String) : RedisHash :=
  (alGet db.hashes key).getD []

def hDelDB (db : RedisDB) (key field : String) : RedisDB :=
  match alGet db.hashes key with
  | none => db
  | some h =>
    let h2 := alRemove h field
    { db with hashes := if h2.isEmpty then alRemove db.hashes key else alSet db.hashes key h2 }

def setKvDB (db : RedisDB) (key value : String) : RedisDB :=
  { db with kv := alSet db.kv key value }

/-- Effect of one write command on a database; read-only and control
commands leave it unchanged.  Nested `multi` never occurs in the source's
batches and is ignored. -/
def applyCmd (db : RedisDB) : RedisCmd → RedisDB
  | .hSet key field value => hSetDB db key field value
  | .hIncrBy key field delta => hIncrByDB db key field delta
  | .hDel key field => hDelDB db key field
  | .del keys => delDB db keys
  | .expire key seconds => expireDB db key seconds
  | .set key value => setKvDB db key value
  | _ => db

/-- An atomic `MULTI`/`EXEC` batch: all commands applied as one step. -/
def execBatch (db : RedisDB) (cmds : List RedisCmd) : RedisDB :=
  cmds.foldl applyCmd db

def DEPLOYMENT_SUCCEEDED : String := "DeploymentSucceeded"

def DEPLOYMENT_FAILED : String := "DeploymentFailed"

def ACTIVE : String := "Active"

def DOWNLOADED : String := "Downloaded"

namespace Utilities

def isValidDeploymentStatus (status : String) : Bool :=
  status = DEPLOYMENT_SUCCEEDED || status = DEPLOYMENT_FAILED || status = DOWNLOADED

def getLabelStatusField (label status : String) : Option String :=
  if isValidDeploymentStatus status then some (label ++ ":" ++ status) else none

/-- `if (label)`: the empty string is falsy in JavaScript. -/
def getLabelActiveCountField (label : String) : Option String :=
  if label ≠ "" then some (label ++ ":" ++ ACTIVE) else none

def getDeploymentKeyHash (deploymentKey : String) : String :=
  "deploymentKey:" ++ deploymentKey

def getDeploymentKeyLabelsHash (deploymentKey : String) : String :=
  "deploymentKeyLabels:" ++ deploymentKey

def getDeploymentKeyClientsHash (deploymentKey : String) : String :=
  "deploymentKeyClients:" ++ deploymentKey

end Utilities

structure CacheableResponse where
  statusCode : Int
  body : Json

def respToJson (r : CacheableResponse) : Json :=
  .jobj (.cons "statusCode" (.jnum r.statusCode) (.cons "body" r.body .nil))

structure RedisState where
  enabled : Bool
  opsPing : Except String String
  metricsPing : Except String String
  opsDB : RedisDB
  metricsDB : RedisDB

structure OpResult (α : Type) where
  result : Except String α
  state : RedisState
  trace : List RedisCmd

/-- Parse the body of a JSON string literal (after the opening quote),
returning the unescaped characters and the input after the closing quote. -/
def parseStringBody : List Char → Option (List Char × List Char)
  | [] => none
  | c :: rest =>
    if c = '"' then some ([], rest)
    else if c = '\\' then
      match rest with
      | [] => none
      | e :: r2 =>
        if e = '"' ∨ e = '\\' then
          (parseStringBody r2).map (fun p => (e :: p.1, p.2))
        else none
    else (parseStringBody rest).map (fun p => (c :: p.1, p.2))
termination_by structural l => l

def parseNumPos (cs : List Char) : Option (Json × List Char) :=
  match parseDigits 0 cs with
  | (n, r) => some (.jnum (n : Int), r)

def parseNumNeg (cs : List Char) : Option (Json × List Char) :=
  match cs with
  | [] => none
  | c :: _ =>
    if c.isDigit then
      match parseDigits 0 cs with
      | (n, r) => some (.jnum (-(n : Int)), r)
    else none

def parseNullLit (cs : List Char) : Option (Json × List Char) :=
  match cs with
  | 'u' :: 'l' :: 'l' :: r => some (.null, r)
  | _ => none

def parseTrueLit (cs : List Char) : Option (Json × List Char) :=
  match cs with
  | 'r' :: 'u' :: 'e' :: r => some (.jbool true, r)
  | _ => none

def parseFalseLit (cs : List Char) : Option (Json × List Char) :=
  match cs with
  | 'a' :: 'l' :: 's' :: 'e' :: r => some (.jbool false, r)
  | _ => none

def parseStrVal (cs : List Char) : Option (Json × List Char) :=
  (parseStringBody cs).map (fun p => (.jstr (String.mk p.1), p.2))

mutual

/-- Fuelled JSON value parser; one unit of fuel per auxiliary call. -/
def parseVal : Nat → List Char → Option (Json × List Char)
  | 0, _ => none
  | _ + 1, [] => none
  | fuel + 1, c :: rest =>
    if c.isDigit then parseNumPos (c :: rest)
    else if c = '-' then parseNumNeg rest
    else if c = '"' then parseStrVal rest
    else if c = '[' then parseArrBody fuel rest
    else if c = lbrace then parseObjBody fuel rest
    else if c = 'n' then parseNullLit rest
    else if c = 't' then parseTrueLit rest
    else if c = 'f' then parseFalseLit rest
    else none

def parseArrBody : Nat → List Char → Option (Json × List Char)
  | 0, _ => none
  | _ + 1, [] => none
  | fuel + 1, c :: rest =>
    if c = ']' then some (.jarr .nil, rest)
    else (parseArrElems fuel (c :: rest)).map (fun p => (Json.jarr p.1, p.2))

def parseArrElems : Nat → List Char → Option (JsonList × List Char)
  | 0, _ => none
  | fuel + 1, cs =>
    match parseVal fuel cs with
    | some (v, ',' :: r2) => (parseArrElems fuel r2).map (fun p => (JsonList.cons v p.1, p.2))
    | some (v, ']' :: r2) => some (.cons v .nil, r2)
    | _ => none

def parseObjBody : Nat → List Char → Option (Json × List Char)
  | 0, _ => none
  | _ + 1, [] => none
  | fuel + 1, c :: rest =>
    if c = rbrace then some (.jobj .nil, rest)
    else (parseObjMembers fuel (c :: rest)).map (fun p => (Json.jobj p.1, p.2))

def parseObjMembers : Nat → List Char → Option (JsonFields × List Char)
  | 0, _ => none
  | _ + 1, [] => none
  | fuel + 1, c :: rest =>
    if c = '"' then
      match parseStringBody rest with
      | some (kcs, r1) =>
        match r1 with
        | ':' :: r2 =>
          match parseVal fuel r2 with
          | some (v, ',' :: r3) =>
            (parseObjMembers fuel r3).map (fun p => (JsonFields.cons (String.mk kcs) v p.1, p.2))
          | some (v, r3) =>
            match r3 with
            | c2 :: r4 => if c2 = rbrace then some (.cons (String.mk kcs) v .nil, r4) else none
            | [] => none
          | none => none
        | _ => none
      | none => none
    else none

end

/-- Modelled from the spec: the platform JSON parser (`JSON.parse`); returns
`none` where the platform parser would throw a syntax error. -/
def Json.parse (s : String) : Option Json :=
  match parseVal (2 * s.data.length + 2) s.data with
  | some (j, []) => some j
  | _ => none

namespace RedisManager

def DEFAULT_EXPIRY : Nat := 3600

def METRICS_DB : Nat := 1

def jsTruthy : Option String → Bool
  | none => false
  | some s => s ≠ ""

/-- The constructor (lines 99-134): enabled iff both `REDIS_HOST` and
`REDIS_PORT` are configured (JavaScript truthiness); when enabled, the
metrics setup selects db 1 and writes the sentinel key `health`. -/
def construct (redisHost redisPort : Option String) (opsDB metricsDB : RedisDB)
    (opsPing metricsPing : Except String String) : RedisState × List RedisCmd :=
  if jsTruthy redisHost && jsTruthy redisPort then
    ({ enabled := true, opsPing, metricsPing, opsDB,
       metricsDB := setKvDB metricsDB "health" "health" },
     [.select METRICS_DB, .set "health" "health"])
  else
    ({ enabled := false, opsPing, metricsPing, opsDB, metricsDB }, [])

def isEnabled (s : RedisState) : Bool := s.enabled

def checkHealth (s : RedisState) : OpResult Unit :=
  if s.enabled then
    match s.opsPing, s.metricsPing with
    | .ok _, .ok _ => ⟨.ok (), s, [.ping, .ping]⟩
    | .error e, _ => ⟨.error e, s, [.ping, .ping]⟩
    | _, .error e => ⟨.error e, s, [.ping, .ping]⟩
  else ⟨.error "Redis manager is not enabled", s, []⟩

/-- Lines 154-167.  Returns the parsed cached object (the source casts the
parse result, so the returned value is exactly the parsed JSON);
a missing or empty stored field yields `none`; a malformed stored field
makes the platform parser throw, which surfaces as a rejection. -/
def getCachedResponse (s : RedisState) (expiryKey url : String) : OpResult (Option Json) :=
  if s.enabled then
    match hGetDB s.opsDB expiryKey url with
    | some serializedResponse =>
      if serializedResponse = "" then ⟨.ok none, s, [.hGet expiryKey url]⟩
      else
        match Json.parse serializedResponse with
        | some response => ⟨.ok (some response), s, [.hGet expiryKey url]⟩
        | none => ⟨.error "SyntaxError", s, [.hGet expiryKey url]⟩
    | none => ⟨.ok none, s, [.hGet expiryKey url]⟩
  else ⟨.ok none, s, []⟩

/-- Lines 175-195: existence check before the write, then the field write,
then the TTL only if the collection did not exist before the write. -/
def setCachedResponse (s : RedisState) (expiryKey url : String)
    (response : CacheableResponse) : OpResult Unit :=
  if s.enabled then
    let serializedResponse := Json.stringify (respToJson response)
    let isNewKey := !existsKeyDB s.opsDB expiryKey
    let db1 := hSetDB s.opsDB expiryKey url serializedResponse
    let db2 := if isNewKey then expireDB db1 expiryKey DEFAULT_EXPIRY else db1
    ⟨.ok (), { s with opsDB := db2 },
      [.existsKey expiryKey, .hSet expiryKey url serializedResponse] ++
        (if isNewKey then [.expire expiryKey DEFAULT_EXPIRY] else [])⟩
  else ⟨.ok (), s, []⟩

/-- Lines 199-208.  The field is computed by `Utilities.getLabelStatusField`
and passed to `HINCRBY` unconditionally (a `null` field is absorbed). -/
def incrementLabelStatusCount (s : RedisState) (deploymentKey label status : String) :
    OpResult Unit :=
  if s.enabled then
    let hash := Utilities.getDeploymentKeyLabelsHash deploymentKey
    let field := Utilities.getLabelStatusField label status
    ⟨.ok (), { s with metricsDB := hIncrByDB s.metricsDB hash field 1 },
      [.hIncrBy hash field 1]⟩
  else ⟨.ok (), s, []⟩

/-- Lines 210-223: one `DEL` of both the labels hash and the clients hash. -/
def clearMetricsForDeploymentKey (s : RedisState) (deploymentKey : String) : OpResult Unit :=
  if s.enabled then
    let keys := [Utilities.getDeploymentKeyLabelsHash deploymentKey,
                 Utilities.getDeploymentKeyClientsHash deploymentKey]
    ⟨.ok (), { s with metricsDB := delDB s.metricsDB keys }, [.del keys]⟩
  else ⟨.ok (), s, []⟩

/-- JavaScript `metrics[field].toString()` applied to a string is the
identity; the `isNaN` guard therefore does not change any value. -/
def normalizeMetricValue (v : String) : String :=
  if (decimalToInt v).isSome then v else v

/-- Lines 227-246: read the whole labels hash; `HGETALL` of an absent key
gives the empty mapping (truthy in JavaScript, so the conversion loop still
runs). -/
def getMetricsWithDeploymentKey (s : RedisState) (deploymentKey : String) :
    OpResult (Option RedisHash) :=
  if s.enabled then
    let hash := Utilities.getDeploymentKeyLabelsHash deploymentKey
    let metrics := hGetAllDB s.metricsDB hash
    ⟨.ok (some (metrics.map (fun p => (p.1, normalizeMetricValue p.2)))), s, [.hGetAll hash]⟩
  else ⟨.ok none, s, []⟩

/-- Lines 248-271: the batch built by `recordUpdate`. -/
def recordUpdateBatch (currentDeploymentKey currentLabel : String)
    (previousDeploymentKey previousLabel : Option String) : List RedisCmd :=
  let currentDeploymentKeyLabelsHash := Utilities.getDeploymentKeyLabelsHash currentDeploymentKey
  let currentLabelActiveField := Utilities.getLabelActiveCountField currentLabel
  let currentLabelDeploymentSucceededField :=
    Utilities.getLabelStatusField currentLabel DEPLOYMENT_SUCCEEDED
  let base := [RedisCmd.hIncrBy currentDeploymentKeyLabelsHash currentLabelActiveField 1,
               RedisCmd.hIncrBy currentDeploymentKeyLabelsHash
                 currentLabelDeploymentSucceededField 1]
  if jsTruthy previousDeploymentKey && jsTruthy previousLabel then
    base ++ [RedisCmd.hIncrBy
      (Utilities.getDeploymentKeyLabelsHash (previousDeploymentKey.getD ""))
      (Utilities.getLabelActiveCountField (previousLabel.getD "")) (-1)]
  else base

/-- Lines 248-271: the batch is executed with `MULTI`/`EXEC` as one atomic
unit. -/
def recordUpdate (s : RedisState) (currentDeploymentKey currentLabel : String)
    (previousDeploymentKey previousLabel : Option String := none) : OpResult Unit :=
  if s.enabled then
    let batch := recordUpdateBatch currentDeploymentKey currentLabel
      previousDeploymentKey previousLabel
    ⟨.ok (), { s with metricsDB := execBatch s.metricsDB batch }, [.multi batch]⟩
  else ⟨.ok (), s, []⟩

/-- Lines 273-284. -/
def removeDeploymentKeyClientActiveLabel (s : RedisState)
    (deploymentKey clientUniqueId : String) : OpResult Unit :=
  if s.enabled then
    let hash := Utilities.getDeploymentKeyClientsHash deploymentKey
    ⟨.ok (), { s with metricsDB := hDelDB s.metricsDB hash clientUniqueId },
      [.hDel hash clientUniqueId]⟩
  else ⟨.ok (), s, []⟩

/-- Lines 286-290. -/
def invalidateCache (s : RedisState) (expiryKey : String) : OpResult Unit :=
  if s.enabled then
    ⟨.ok (), { s with opsDB := delDB s.opsDB [expiryKey] }, [.del [expiryKey]]⟩
  else ⟨.ok (), s, []⟩

/-- Lines 293-301: `close` checks the clients directly and is a no-op when
both are absent. -/
def close (s : RedisState) : OpResult Unit :=
  if s.enabled then ⟨.ok (), s, [.quit, .quit]⟩
  else ⟨.ok (), s, []⟩

/-- Lines 304-312 (deprecated in the source). -/
def getCurrentActiveLabel (s : RedisState) (deploymentKey clientUniqueId : String) :
    OpResult (Option String) :=
  if s.enabled then
    let hash := Utilities.getDeploymentKeyClientsHash deploymentKey
    ⟨.ok (hGetDB s.metricsDB hash clientUniqueId), s, [.hGet hash clientUniqueId]⟩
  else ⟨.ok none, s, []⟩

/-- Lines 315-337 (deprecated in the source): the legacy batch. -/
def updateActiveAppForClient (s : RedisState) (deploymentKey clientUniqueId toLabel : String)
    (fromLabel : Option String := none) : OpResult Unit :=
  if s.enabled then
    let deploymentKeyLabelsHash := Utilities.getDeploymentKeyLabelsHash deploymentKey
    let deploymentKeyClientsHash := Utilities.getDeploymentKeyClientsHash deploymentKey
    let toLabelActiveField := Utilities.getLabelActiveCountField toLabel
    let base := [RedisCmd.hSet deploymentKeyClientsHash clientUniqueId toLabel,
                 RedisCmd.hIncrBy deploymentKeyLabelsHash toLabelActiveField 1]
    let batch := if jsTruthy fromLabel then
        base ++ [RedisCmd.hIncrBy deploymentKeyLabelsHash
          (Utilities.getLabelActiveCountField (fromLabel.getD "")) (-1)]
      else base
    ⟨.ok (), { s with metricsDB := execBatch s.metricsDB batch }, [.multi batch]⟩
  else ⟨.ok (), s, []⟩

end RedisManager

/-- The running value of an integer counter field (0 when absent). -/
def counterVal (db : RedisDB) (key field : String) : Int :=
  ((hGetDB db key field).bind decimalToInt).getD 0

def sampleEnabled : RedisState :=
  (RedisManager.construct (some "redis") (some "6379") RedisDB.empty RedisDB.empty
    (.ok "PONG") (.ok "PONG")).1

def sampleDisabled : RedisState :=
  (RedisManager.construct none none RedisDB.empty RedisDB.empty
    (.ok "PONG") (.ok "PONG")).1

def isOkE {α : Type} : Except String α → Bool
  | .ok _ => true
  | .error _ => false

mutual

/-- Fuel sufficient to parse the emitted text of a JSON value. -/
def Json.fuelNeed : Json → Nat
  | .null | .jbool _ | .jnum _ | .jstr _ => 1
  | .jarr xs => 2 + JsonList.fuelNeedElems xs
  | .jobj fs => 2 + JsonFields.fuelNeedMembers fs

def JsonList.fuelNeedElems : JsonList → Nat
  | .nil => 0
  | .cons x tl => 1 + Json.fuelNeed x + JsonList.fuelNeedElems tl

def JsonFields.fuelNeedMembers : JsonFields → Nat
  | .nil => 0
  | .cons _ v tl => 1 + Json.fuelNeed v + JsonFields.fuelNeedMembers tl

end

def headDigit : List Char → Bool
  | [] => false
  | c :: _ => c.isDigit

/-- The field either is absent or holds a well-formed decimal integer. -/
def intFieldOk (db : RedisDB) (key field : String) : Bool :=
  match hGetDB db key field with
  | none => true
  | some v => (decimalToInt v).isSome

def countExpire (trace : List RedisCmd) : Nat :=
  (trace.filter (fun c => match c with | .expire _ _ => true | _ => false)).length

/-! ## Verified properties -/

theorem alGet_alSet_self {β : Type} (l : List (String × β)) (k : String) (v : β) :
    alGet (alSet l k v) k = some v := by
  induction l with
  | nil => simp [alGet, alSet]
  | cons hd t ih =>
    obtain ⟨k0, v0⟩ := hd
    by_cases h : k0 = k
    · subst h; simp [alGet, alSet]
    · simp [alGet, alSet, h, ih]

theorem alGet_alSet_ne {β : Type} (l : List (String × β)) (k k' : String) (v : β)
    (h : k ≠ k') : alGet (alSet l k v) k' = alGet l k' := by
  induction l with
  | nil => simp [alGet, alSet, h]
  | cons hd t ih =>
    obtain ⟨k0, v0⟩ := hd
    by_cases h0 : k0 = k
    · subst h0; simp [alGet, alSet, h]
    · simp only [alSet, if_neg h0]
      by_cases h1 : k0 = k'
      · subst h1; simp [alGet]
      · simp [alGet, h1, ih]

theorem alGet_alDropKeys_removed {β : Type} (l : List (String × β)) (ks : List String)
    (k : String) (h : k ∈ ks) : alGet (alDropKeys l ks) k = none := by
  induction l with
  | nil => simp [alGet, alDropKeys]
  | cons hd t ih =>
    obtain ⟨k0, v0⟩ := hd
    by_cases h0 : k0 ∈ ks
    · simpa [alDropKeys, h0] using ih
    · have hne : k0 ≠ k := fun he => h0 (he ▸ h)
      simpa [alDropKeys, h0, alGet, hne] using ih

theorem alGet_alDropKeys_kept {β : Type} (l : List (String × β)) (ks : List String)
    (k : String) (h : k ∉ ks) : alGet (alDropKeys l ks) k = alGet l k := by
  induction l with
  | nil => simp [alGet, alDropKeys]
  | cons hd t ih =>
    obtain ⟨k0, v0⟩ := hd
    by_cases h0 : k0 ∈ ks
    · have hne : k0 ≠ k := fun he => h (he ▸ h0)
      simpa [alDropKeys, h0, alGet, hne] using ih
    · by_cases h1 : k0 = k
      · subst h1; simp [alDropKeys, h0, alGet]
      · simpa [alDropKeys, h0, alGet, h1] using ih

theorem digitChar_isDigit {n : Nat} (h : n < 10) : (digitChar n).isDigit = true := by
  interval_cases n <;> decide

theorem digitVal_digitChar {n : Nat} (h : n < 10) : digitVal (digitChar n) = n := by
  interval_cases n <;> decide

theorem emitNatAux_extra (fuel₁ fuel₂ n : Nat) (h₁ : n < fuel₁) (h₂ : n < fuel₂) :
    emitNatAux fuel₁ n = emitNatAux fuel₂ n := by
  induction n using Nat.strong_induction_on generalizing fuel₁ fuel₂ with
  | _ n ih =>
    cases fuel₁ with
    | zero => omega
    | succ f₁ =>
      cases fuel₂ with
      | zero => omega
      | succ f₂ =>
        simp only [emitNatAux]
        by_cases h : n < 10
        · simp [h]
        · have hd : n / 10 < n := Nat.div_lt_self (by omega) (by omega)
          simp only [if_neg h]
          rw [ih (n / 10) hd f₁ f₂ (by omega) (by omega)]

theorem emitNat_eq (n : Nat) :
    emitNat n = if n < 10 then [digitChar n] else emitNat (n / 10) ++ [digitChar (n % 10)] := by
  unfold emitNat
  simp only [emitNatAux]
  by_cases h : n < 10
  · simp [h]
  · have hd : n / 10 < n := Nat.div_lt_self (by omega) (by omega)
    simp only [if_neg h]
    rw [emitNatAux_extra n (n / 10 + 1) (n / 10) hd (by omega)]
    simp only [emitNat, emitNatAux]

theorem emitNat_ne_nil (n : Nat) : emitNat n ≠ [] := by
  rw [emitNat_eq]
  by_cases h : n < 10 <;> simp [h]

theorem emitNat_all_digits (n : Nat) : ∀ c ∈ emitNat n, c.isDigit = true := by
  induction n using Nat.strong_induction_on with
  | _ n ih =>
    rw [emitNat_eq]
    by_cases h : n < 10
    · simp only [if_pos h]
      intro c hc
      simp only [List.mem_singleton] at hc
      exact hc ▸ digitChar_isDigit h
    · have hd : n / 10 < n := Nat.div_lt_self (by omega) (by omega)
      simp only [if_neg h]
      intro c hc
      rcases List.mem_append.mp hc with h1 | h2
      · exact ih (n / 10) hd c h1
      · simp only [List.mem_singleton] at h2
        exact h2 ▸ digitChar_isDigit (Nat.mod_lt _ (by omega))

theorem parseDigits_emitNat (n : Nat) : ∀ (acc : Nat) (rest : List Char),
    parseDigits acc (emitNat n ++ rest) =
      parseDigits (acc * 10 ^ (emitNat n).length + n) rest := by
  induction n using Nat.strong_induction_on with
  | _ n ih =>
    intro acc rest
    by_cases h : n < 10
    · rw [emitNat_eq, if_pos h]
      simp [parseDigits, digitChar_isDigit h, digitVal_digitChar h]
    · have hd : n / 10 < n := Nat.div_lt_self (by omega) (by omega)
      rw [emitNat_eq, if_neg h]
      rw [List.append_assoc, List.cons_append, List.nil_append]
      rw [ih (n / 10) hd acc (digitChar (n % 10) :: rest)]
      have hm : n % 10 < 10 := Nat.mod_lt _ (by omega)
      simp only [parseDigits, digitChar_isDigit hm, if_pos, digitVal_digitChar hm]
      have hdm : n / 10 * 10 + n % 10 = n := by omega
      have harith : (acc * 10 ^ (emitNat (n / 10)).length + n / 10) * 10 + n % 10 =
          acc * 10 ^ ((emitNat (n / 10)).length + 1) + n := by
        calc (acc * 10 ^ (emitNat (n / 10)).length + n / 10) * 10 + n % 10
            = acc * (10 ^ (emitNat (n / 10)).length * 10) + (n / 10 * 10 + n % 10) := by ring
          _ = acc * 10 ^ ((emitNat (n / 10)).length + 1) + n := by rw [hdm, pow_succ]
      rw [harith]
      congr 2
      simp [List.length_append]

theorem parseDigits_stop (acc : Nat) (rest : List Char)
    (h : ∀ c ∈ rest.head?, c.isDigit = false) : parseDigits acc rest = (acc, rest) := by
  cases rest with
  | nil => simp [parseDigits]
  | cons c t =>
    have : c.isDigit = false := h c (by simp)
    simp [parseDigits, this]

theorem decimalDigitsToNat_emitNat (n : Nat) : decimalDigitsToNat (emitNat n) = some n := by
  obtain ⟨c, cs, hc⟩ : ∃ c cs, emitNat n = c :: cs := by
    cases he : emitNat n with
    | nil => exact absurd he (emitNat_ne_nil _)
    | cons c cs => exact ⟨c, cs, rfl⟩
  have hdig : c.isDigit = true := emitNat_all_digits _ c (by rw [hc]; exact List.mem_cons_self _ _)
  have hparse : parseDigits 0 (emitNat n) = (n, []) := by
    have h0 := parseDigits_emitNat n 0 []
    rw [List.append_nil] at h0
    simpa [parseDigits] using h0
  rw [hc] at hparse ⊢
  simp [decimalDigitsToNat, hdig, hparse]

theorem emitNat_head_not_dash (n : Nat) (c : Char) (cs : List Char)
    (hc : emitNat n = c :: cs) : c ≠ '-' := by
  have hdig : c.isDigit = true := emitNat_all_digits _ c (by rw [hc]; exact List.mem_cons_self _ _)
  intro he
  rw [he] at hdig
  exact absurd hdig (by decide)

theorem decCharsToInt_emitInt (n : Int) : decCharsToInt (emitInt n) = some n := by
  by_cases h : n < 0
  · simp only [emitInt, if_pos h, decCharsToInt, if_true]
    rw [decimalDigitsToNat_emitNat]
    have habs : ((n.natAbs : Nat) : Int) = -n := by omega
    simp [habs]
  · simp only [emitInt, if_neg h]
    obtain ⟨c, cs, hc⟩ : ∃ c cs, emitNat n.toNat = c :: cs := by
      cases he : emitNat n.toNat with
      | nil => exact absurd he (emitNat_ne_nil _)
      | cons c cs => exact ⟨c, cs, rfl⟩
    have hdash := emitNat_head_not_dash _ _ _ hc
    have hr : decimalDigitsToNat (c :: cs) = some n.toNat := by
      rw [← hc]; exact decimalDigitsToNat_emitNat n.toNat
    rw [hc]
    simp only [decCharsToInt, if_neg hdash, hr]
    have htn : ((n.toNat : Nat) : Int) = n := by omega
    simp [htn]

theorem decimalToInt_intToDecimal (n : Int) : decimalToInt (intToDecimal n) = some n :=
  decCharsToInt_emitInt n

theorem parseStringBody_quote (rest : List Char) :
    parseStringBody ('"' :: rest) = some ([], rest) := by
  rw [parseStringBody.eq_def]
  simp

theorem parseStringBody_escaped (e : Char) (r2 : List Char) (h : e = '"' ∨ e = '\\') :
    parseStringBody ('\\' :: e :: r2) = (parseStringBody r2).map (fun p => (e :: p.1, p.2)) := by
  rw [parseStringBody.eq_def]
  simp [h]

theorem parseStringBody_plain (c : Char) (rest : List Char) (h1 : c ≠ '"') (h2 : c ≠ '\\') :
    parseStringBody (c :: rest) = (parseStringBody rest).map (fun p => (c :: p.1, p.2)) := by
  rw [parseStringBody.eq_def]
  simp [h1, h2]

theorem parseStringBody_escList (l : List Char) (rest : List Char) :
    parseStringBody (escList l ++ '"' :: rest) = some (l, rest) := by
  induction l with
  | nil => simpa [escList] using parseStringBody_quote rest
  | cons c cs ih =>
    by_cases h : c = '"' ∨ c = '\\'
    · simp only [escList, escChar, if_pos h, List.cons_append, List.nil_append]
      rw [parseStringBody_escaped c _ h, ih]
      simp
    · push_neg at h
      simp only [escList, escChar, if_neg (by tauto : ¬ (c = '"' ∨ c = '\\')),
        List.cons_append, List.nil_append]
      rw [parseStringBody_plain c _ h.1 h.2, ih]
      simp

theorem parseVal_succ_cons (f : Nat) (c : Char) (rest : List Char) :
    parseVal (f + 1) (c :: rest) =
      (if c.isDigit then parseNumPos (c :: rest)
       else if c = '-' then parseNumNeg rest
       else if c = '"' then parseStrVal rest
       else if c = '[' then parseArrBody f rest
       else if c = lbrace then parseObjBody f rest
       else if c = 'n' then parseNullLit rest
       else if c = 't' then parseTrueLit rest
       else if c = 'f' then parseFalseLit rest
       else none) := by
  rw [parseVal.eq_def]

theorem parseArrBody_succ_cons (f : Nat) (c : Char) (rest : List Char) :
    parseArrBody (f + 1) (c :: rest) =
      (if c = ']' then some (.jarr .nil, rest)
       else (parseArrElems f (c :: rest)).map (fun p => (Json.jarr p.1, p.2))) := by
  rw [parseArrBody.eq_def]

theorem parseObjBody_succ_cons (f : Nat) (c : Char) (rest : List Char) :
    parseObjBody (f + 1) (c :: rest) =
      (if c = rbrace then some (.jobj .nil, rest)
       else (parseObjMembers f (c :: rest)).map (fun p => (Json.jobj p.1, p.2))) := by
  rw [parseObjBody.eq_def]

theorem parseArrElems_succ (f : Nat) (cs : List Char) :
    parseArrElems (f + 1) cs =
      (match parseVal f cs with
       | some (v, ',' :: r2) => (parseArrElems f r2).map (fun p => (JsonList.cons v p.1, p.2))
       | some (v, ']' :: r2) => some (.cons v .nil, r2)
       | _ => none) := by
  rw [parseArrElems.eq_def]

theorem parseDigits_emitNat_full (m : Nat) (rest : List Char) (hrest : headDigit rest = false) :
    parseDigits 0 (emitNat m ++ rest) = (m, rest) := by
  rw [parseDigits_emitNat]
  simp only [Nat.zero_mul, Nat.zero_add]
  apply parseDigits_stop
  cases rest with
  | nil => simp
  | cons c t =>
    intro c2 hc2
    simp only [List.head?] at hc2
    cases hc2
    simpa [headDigit] using hrest

theorem parseVal_emitInt (n : Int) (f : Nat) (rest : List Char) (hrest : headDigit rest = false) :
    parseVal (f + 1) (emitInt n ++ rest) = some (.jnum n, rest) := by
  by_cases h : n < 0
  · simp only [emitInt, if_pos h, List.cons_append]
    rw [parseVal_succ_cons]
    simp only [show ('-' : Char).isDigit = false from by decide, if_false, if_pos rfl,
      Bool.false_eq_true]
    obtain ⟨c, cs, hc⟩ : ∃ c cs, emitNat n.natAbs = c :: cs := by
      cases he : emitNat n.natAbs with
      | nil => exact absurd he (emitNat_ne_nil _)
      | cons c cs => exact ⟨c, cs, rfl⟩
    have hdig : c.isDigit = true := emitNat_all_digits _ c (by rw [hc]; exact List.mem_cons_self _ _)
    have hfull := parseDigits_emitNat_full n.natAbs rest hrest
    rw [hc] at hfull ⊢
    simp only [List.cons_append] at hfull ⊢
    simp only [parseNumNeg, hdig, if_pos, hfull]
    have habs : (-(↑(n.natAbs) : Int)) = n := by omega
    rw [habs]
  · simp only [emitInt, if_neg h]
    obtain ⟨c, cs, hc⟩ : ∃ c cs, emitNat n.toNat = c :: cs := by
      cases he : emitNat n.toNat with
      | nil => exact absurd he (emitNat_ne_nil _)
      | cons c cs => exact ⟨c, cs, rfl⟩
    have hdig : c.isDigit = true := emitNat_all_digits _ c (by rw [hc]; exact List.mem_cons_self _ _)
    have hfull := parseDigits_emitNat_full n.toNat rest hrest
    rw [hc] at hfull ⊢
    simp only [List.cons_append] at hfull ⊢
    rw [parseVal_succ_cons]
    simp only [hdig, if_pos]
    simp only [parseNumPos, hfull]
    have htn : ((n.toNat : Nat) : Int) = n := by omega
    rw [htn]

theorem stringMk_data (s : String) : String.mk s.data = s := rfl

theorem Json.fuelNeed_pos (j : Json) : 1 ≤ j.fuelNeed := by
  cases j <;> simp [Json.fuelNeed] <;> omega

theorem Json.emit_head_ne (j : Json) : ∃ c cs, Json.emit j = c :: cs ∧ c ≠ ']' := by
  cases j with
  | null => exact ⟨'n', ['u', 'l', 'l'], by simp [Json.emit], by decide⟩
  | jbool b =>
    cases b with
    | false => exact ⟨'f', ['a', 'l', 's', 'e'], by simp [Json.emit], by decide⟩
    | true => exact ⟨'t', ['r', 'u', 'e'], by simp [Json.emit], by decide⟩
  | jnum n =>
    by_cases h : n < 0
    · exact ⟨'-', emitNat n.natAbs, by simp [Json.emit, emitInt, h], by decide⟩
    · obtain ⟨c, cs, hc⟩ : ∃ c cs, emitNat n.toNat = c :: cs := by
        cases he : emitNat n.toNat with
        | nil => exact absurd he (emitNat_ne_nil _)
        | cons c cs => exact ⟨c, cs, rfl⟩
      have hdig : c.isDigit = true :=
        emitNat_all_digits _ c (by rw [hc]; exact List.mem_cons_self _ _)
      refine ⟨c, cs, by simp [Json.emit, emitInt, h, hc], ?_⟩
      intro he
      rw [he] at hdig
      exact absurd hdig (by decide)
  | jstr s => exact ⟨'"', escList s.data ++ ['"'], by simp [Json.emit], by decide⟩
  | jarr xs => exact ⟨'[', JsonList.emitElems xs ++ [']'], by simp [Json.emit], by decide⟩
  | jobj fs =>
    exact ⟨lbrace, JsonFields.emitMembers fs ++ [rbrace], by simp [Json.emit], by decide⟩

mutual

theorem parseVal_emit (j : Json) (fuel : Nat) (rest : List Char)
    (hf : Json.fuelNeed j ≤ fuel) (hrest : headDigit rest = false) :
    parseVal fuel (Json.emit j ++ rest) = some (j, rest) := by
  obtain ⟨f, rfl⟩ : ∃ f, fuel = f + 1 :=
    ⟨fuel - 1, by have := Json.fuelNeed_pos j; omega⟩
  cases j with
  | null =>
    simp only [Json.emit, List.cons_append, List.nil_append]
    rw [parseVal_succ_cons]
    simp [parseNullLit, lbrace]
  | jbool b =>
    cases b
    · simp only [Json.emit, List.cons_append, List.nil_append]
      rw [parseVal_succ_cons]
      simp [parseFalseLit, lbrace]
    · simp only [Json.emit, List.cons_append, List.nil_append]
      rw [parseVal_succ_cons]
      simp [parseTrueLit, lbrace]
  | jnum n =>
    simp only [Json.emit]
    exact parseVal_emitInt n f rest hrest
  | jstr s =>
    simp only [Json.emit, List.cons_append, List.append_assoc, List.nil_append]
    rw [parseVal_succ_cons]
    simp only [show ('"' : Char).isDigit = false from by decide,
      show ('"' : Char) = '-' ↔ False from by decide, if_false, iff_false,
      Bool.false_eq_true, if_true, if_pos rfl]
    simp [parseStrVal, parseStringBody_escList, stringMk_data]
  | jarr xs =>
    simp only [Json.fuelNeed] at hf
    obtain ⟨g, rfl⟩ : ∃ g, f = g + 1 := ⟨f - 1, by omega⟩
    simp only [Json.emit, List.cons_append, List.append_assoc, List.nil_append]
    rw [parseVal_succ_cons]
    simp only [show ('[' : Char).isDigit = false from by decide,
      show ('[' : Char) = '-' ↔ False from by decide,
      show ('[' : Char) = '"' ↔ False from by decide, iff_false,
      Bool.false_eq_true, if_false, if_pos rfl]
    cases xs with
    | nil =>
      simp only [JsonList.emitElems, List.nil_append]
      rw [parseArrBody_succ_cons]
      simp
    | cons x tl =>
      obtain ⟨c, cs, hc, hcne⟩ := Json.emit_head_ne x
      have hhead : ∃ T, JsonList.emitElems (.cons x tl) ++ ']' :: rest = c :: T := by
        cases tl with
        | nil => exact ⟨cs ++ ']' :: rest, by simp [JsonList.emitElems, hc]⟩
        | cons y tl2 =>
          exact ⟨cs ++ ',' :: JsonList.emitElems (.cons y tl2) ++ ']' :: rest,
            by simp [JsonList.emitElems, hc]⟩
      obtain ⟨T, hT⟩ := hhead
      rw [hT, parseArrBody_succ_cons, if_neg hcne, ← hT]
      rw [parseArrElems_emit x tl g rest (by simp only [JsonList.fuelNeedElems] at hf ⊢; omega)]
      simp
  | jobj fs =>
    simp only [Json.fuelNeed] at hf
    obtain ⟨g, rfl⟩ : ∃ g, f = g + 1 := ⟨f - 1, by omega⟩
    simp only [Json.emit, List.cons_append, List.append_assoc, List.nil_append]
    rw [parseVal_succ_cons]
    simp only [show lbrace.isDigit = false from by decide,
      show lbrace = '-' ↔ False from by decide,
      show lbrace = '"' ↔ False from by decide,
      show lbrace = '[' ↔ False from by decide, iff_false,
      Bool.false_eq_true, if_false, if_pos rfl]
    cases fs with
    | nil =>
      simp only [JsonFields.emitMembers, List.nil_append]
      rw [parseObjBody_succ_cons]
      simp
    | cons k v tl =>
      have hhead : ∃ T, JsonFields.emitMembers (.cons k v tl) ++ rbrace :: rest = '"' :: T := by
        cases tl with
        | nil => exact ⟨escList k.data ++ '"' :: ':' :: Json.emit v ++ rbrace :: rest,
            by simp [JsonFields.emitMembers]⟩
        | cons k2 v2 tl2 =>
          exact ⟨escList k.data ++ '"' :: ':' :: Json.emit v ++
              ',' :: JsonFields.emitMembers (.cons k2 v2 tl2) ++ rbrace :: rest,
            by simp [JsonFields.emitMembers]⟩
      obtain ⟨T, hT⟩ := hhead
      rw [hT, parseObjBody_succ_cons, if_neg (by decide : ('"' : Char) ≠ rbrace), ← hT]
      rw [parseObjMembers_emit k v tl g rest
        (by simp only [JsonFields.fuelNeedMembers] at hf ⊢; omega)]
      simp
termination_by sizeOf j

theorem parseArrElems_emit (x : Json) (tl : JsonList) (fuel : Nat) (rest : List Char)
    (hf : JsonList.fuelNeedElems (.cons x tl) ≤ fuel) :
    parseArrElems fuel (JsonList.emitElems (.cons x tl) ++ ']' :: rest) =
      some (.cons x tl, rest) := by
  simp only [JsonList.fuelNeedElems] at hf
  obtain ⟨g, rfl⟩ : ∃ g, fuel = g + 1 := ⟨fuel - 1, by omega⟩
  rw [parseArrElems_succ]
  cases tl with
  | nil =>
    simp only [JsonList.emitElems]
    rw [parseVal_emit x g (']' :: rest) (by simp only [JsonList.fuelNeedElems] at hf; omega)
      (by simp [headDigit])]
    simp
  | cons y tl2 =>
    simp only [JsonList.emitElems, List.append_assoc, List.cons_append]
    rw [parseVal_emit x g (',' :: (JsonList.emitElems (.cons y tl2) ++ ']' :: rest))
      (by simp only [JsonList.fuelNeedElems] at hf; omega) (by simp [headDigit])]
    simp only
    rw [parseArrElems_emit y tl2 g rest (by simp only [JsonList.fuelNeedElems] at hf ⊢; omega)]
    simp
termination_by sizeOf (JsonList.cons x tl)

theorem parseObjMembers_emit (k : String) (v : Json) (tl : JsonFields) (fuel : Nat)
    (rest : List Char) (hf : JsonFields.fuelNeedMembers (.cons k v tl) ≤ fuel) :
    parseObjMembers fuel (JsonFields.emitMembers (.cons k v tl) ++ rbrace :: rest) =
      some (.cons k v tl, rest) := by
  simp only [JsonFields.fuelNeedMembers] at hf
  obtain ⟨g, rfl⟩ : ∃ g, fuel = g + 1 := ⟨fuel - 1, by omega⟩
  cases tl with
  | nil =>
    simp only [JsonFields.emitMembers, List.cons_append, List.append_assoc, List.nil_append]
    rw [parseObjMembers.eq_def]
    simp only [if_pos rfl]
    rw [show escList k.data ++ '"' :: ':' :: (Json.emit v ++ rbrace :: rest) =
      escList k.data ++ '"' :: (':' :: (Json.emit v ++ rbrace :: rest)) from rfl]
    rw [parseStringBody_escList]
    simp only
    rw [parseVal_emit v g (rbrace :: rest) (by omega) (by simp [headDigit, rbrace])]
    simp [stringMk_data, rbrace]
  | cons k2 v2 tl2 =>
    simp only [JsonFields.emitMembers, List.cons_append, List.append_assoc, List.nil_append]
    rw [parseObjMembers.eq_def]
    simp only [if_pos rfl]
    rw [show escList k.data ++ '"' :: ':' :: (Json.emit v ++
        ',' :: (JsonFields.emitMembers (.cons k2 v2 tl2) ++ rbrace :: rest)) =
      escList k.data ++ '"' :: (':' :: (Json.emit v ++
        ',' :: (JsonFields.emitMembers (.cons k2 v2 tl2) ++ rbrace :: rest))) from rfl]
    rw [parseStringBody_escList]
    simp only
    rw [parseVal_emit v g (',' :: (JsonFields.emitMembers (.cons k2 v2 tl2) ++ rbrace :: rest))
      (by omega) (by simp [headDigit])]
    simp only
    rw [parseObjMembers_emit k2 v2 tl2 g rest
      (by simp only [JsonFields.fuelNeedMembers] at hf ⊢; omega)]
    simp [stringMk_data]
termination_by sizeOf (JsonFields.cons k v tl)

end

mutual

theorem Json.fuelNeed_le_emit (j : Json) : Json.fuelNeed j ≤ 2 * (Json.emit j).length := by
  cases j with
  | null => simp [Json.fuelNeed, Json.emit]
  | jbool b => cases b <;> simp [Json.fuelNeed, Json.emit]
  | jnum n =>
    have hlen : 1 ≤ (Json.emit (.jnum n)).length := by
      simp only [Json.emit, emitInt]
      by_cases h : n < 0
      · simp [h]
      · simp only [if_neg h]
        have := emitNat_ne_nil n.toNat
        cases he : emitNat n.toNat with
        | nil => exact absurd he this
        | cons c cs => simp
    simp only [Json.fuelNeed]
    omega
  | jstr s => simp [Json.fuelNeed, Json.emit]; omega
  | jarr xs =>
    have h := JsonList.fuelNeedElems_le_emit xs
    simp only [Json.fuelNeed, Json.emit, List.length_cons, List.length_append,
      List.length_singleton]
    omega
  | jobj fs =>
    have h := JsonFields.fuelNeedMembers_le_emit fs
    simp only [Json.fuelNeed, Json.emit, List.length_cons, List.length_append,
      List.length_singleton]
    omega
termination_by sizeOf j

theorem JsonList.fuelNeedElems_le_emit (xs : JsonList) :
    JsonList.fuelNeedElems xs ≤ 2 * (JsonList.emitElems xs).length + 1 := by
  cases xs with
  | nil => simp [JsonList.fuelNeedElems]
  | cons x tl =>
    cases tl with
    | nil =>
      have h := Json.fuelNeed_le_emit x
      simp only [JsonList.fuelNeedElems, JsonList.emitElems]
      omega
    | cons y tl2 =>
      have h1 := Json.fuelNeed_le_emit x
      have h2 := JsonList.fuelNeedElems_le_emit (JsonList.cons y tl2)
      simp only [JsonList.fuelNeedElems, JsonList.emitElems, List.length_append,
        List.length_cons] at h2 ⊢
      omega
termination_by sizeOf xs

theorem JsonFields.fuelNeedMembers_le_emit (fs : JsonFields) :
    JsonFields.fuelNeedMembers fs ≤ 2 * (JsonFields.emitMembers fs).length + 1 := by
  cases fs with
  | nil => simp [JsonFields.fuelNeedMembers]
  | cons k v tl =>
    cases tl with
    | nil =>
      have h := Json.fuelNeed_le_emit v
      simp only [JsonFields.fuelNeedMembers, JsonFields.emitMembers, List.length_cons,
        List.length_append]
      omega
    | cons k2 v2 tl2 =>
      have h1 := Json.fuelNeed_le_emit v
      have h2 := JsonFields.fuelNeedMembers_le_emit (JsonFields.cons k2 v2 tl2)
      simp only [JsonFields.fuelNeedMembers, JsonFields.emitMembers, List.length_append,
        List.length_cons] at h2 ⊢
      omega
termination_by sizeOf fs

end

theorem Json.parse_stringify (j : Json) : Json.parse (Json.stringify j) = some j := by
  show (match parseVal (2 * (Json.emit j).length + 2) (Json.emit j) with
    | some (j, []) => some j
    | _ => none) = some j
  have h := parseVal_emit j (2 * (Json.emit j).length + 2) []
    (by have := Json.fuelNeed_le_emit j; omega) (by simp [headDigit])
  rw [List.append_nil] at h
  rw [h]

theorem Json.stringify_obj_ne_empty (fs : JsonFields) : Json.stringify (.jobj fs) ≠ "" := by
  intro h
  have hd := congrArg String.data h
  simp [Json.stringify, Json.emit] at hd

theorem strAppend_left_cancel {a b c : String} (h : a ++ b = a ++ c) : b = c := by
  have hd := congrArg String.data h
  rw [String.data_append, String.data_append] at hd
  have h2 := List.append_cancel_left hd
  cases b
  cases c
  exact congrArg String.mk h2

theorem labelsHash_inj {k1 k2 : String}
    (h : Utilities.getDeploymentKeyLabelsHash k1 = Utilities.getDeploymentKeyLabelsHash k2) :
    k1 = k2 :=
  strAppend_left_cancel h

theorem labelsHash_ne_clientsHash (k1 k2 : String) :
    Utilities.getDeploymentKeyLabelsHash k1 ≠ Utilities.getDeploymentKeyClientsHash k2 := by
  intro h
  have hd := congrArg String.data h
  rw [Utilities.getDeploymentKeyLabelsHash, Utilities.getDeploymentKeyClientsHash] at hd
  rw [String.data_append, String.data_append] at hd
  have ht := congrArg (List.take 14) hd
  rw [List.take_append_of_le_length (by decide),
      List.take_append_of_le_length (by decide)] at ht
  exact absurd ht (by decide)

theorem hIncrByDB_none (db : RedisDB) (key : String) (n : Int) :
    hIncrByDB db key none n = db := rfl

theorem hIncrByDB_other_key (db : RedisDB) (key : String) (f : Option String) (n : Int)
    (key' : String) (h : key ≠ key') :
    alGet (hIncrByDB db key f n).hashes key' = alGet db.hashes key' := by
  cases f with
  | none => rfl
  | some f0 =>
    unfold hIncrByDB
    cases halget : alGet ((alGet db.hashes key).getD []) f0 with
    | none =>
      simp only [halget]
      simp [alGet_alSet_ne _ _ _ _ h]
    | some old =>
      simp only [halget]
      cases hdec : decimalToInt old with
      | none => simp only [hdec]
      | some o =>
        simp only [hdec]
        simp [alGet_alSet_ne _ _ _ _ h]

theorem hIncrByDB_branch_new (db : RedisDB) (key f : String) (n : Int)
    (hmiss : alGet ((alGet db.hashes key).getD []) f = none) :
    hIncrByDB db key (some f) n =
      { db with
        hashes := alSet db.hashes key (alSet ((alGet db.hashes key).getD []) f (intToDecimal n)) } := by
  unfold hIncrByDB
  simp only [hmiss]

theorem hIncrByDB_branch_bad (db : RedisDB) (key f : String) (n : Int) (old : String)
    (hold : alGet ((alGet db.hashes key).getD []) f = some old)
    (hdec : decimalToInt old = none) : hIncrByDB db key (some f) n = db := by
  unfold hIncrByDB
  simp only [hold, hdec]

theorem hIncrByDB_branch_upd (db : RedisDB) (key f : String) (n : Int) (old : String)
    (o : Int) (hold : alGet ((alGet db.hashes key).getD []) f = some old)
    (hdec : decimalToInt old = some o) :
    hIncrByDB db key (some f) n =
      { db with
        hashes := alSet db.hashes key (alSet ((alGet db.hashes key).getD []) f (intToDecimal (o + n))) } := by
  unfold hIncrByDB
  simp only [hold, hdec]

theorem hGetDB_hIncrByDB_other_field (db : RedisDB) (key f : String) (n : Int)
    (f' : String) (h : f' ≠ f) :
    hGetDB (hIncrByDB db key (some f) n) key f' = hGetDB db key f' := by
  have hfne : f ≠ f' := Ne.symm h
  cases hk : alGet db.hashes key with
  | none =>
    have hH : ((alGet db.hashes key).getD []) = [] := by rw [hk]; rfl
    have hmiss : alGet ((alGet db.hashes key).getD []) f = none := by rw [hH]; rfl
    rw [hIncrByDB_branch_new db key f n hmiss]
    unfold hGetDB
    rw [hH, hk]
    simp [alGet_alSet_self, alGet_alSet_ne _ _ _ _ hfne, alGet, hfne]
  | some h0 =>
    have hH : ((alGet db.hashes key).getD []) = h0 := by rw [hk]; rfl
    cases hf : alGet h0 f with
    | none =>
      have hmiss : alGet ((alGet db.hashes key).getD []) f = none := by rw [hH, hf]
      rw [hIncrByDB_branch_new db key f n hmiss]
      unfold hGetDB
      rw [hH, hk]
      simp [alGet_alSet_self, alGet_alSet_ne _ _ _ _ hfne, hfne]
    | some old =>
      cases hdec : decimalToInt old with
      | none =>
        rw [hIncrByDB_branch_bad db key f n old (by rw [hH, hf]) hdec]
      | some o =>
        rw [hIncrByDB_branch_upd db key f n old o (by rw [hH, hf]) hdec]
        unfold hGetDB
        rw [hH, hk]
        simp [alGet_alSet_self, alGet_alSet_ne _ _ _ _ hfne, hfne]

theorem hIncrByDB_counter (db : RedisDB) (key f : String) (n : Int)
    (h : intFieldOk db key f = true) :
    counterVal (hIncrByDB db key (some f) n) key f = counterVal db key f + n := by
  cases hk : alGet db.hashes key with
  | none =>
    have hH : ((alGet db.hashes key).getD []) = [] := by rw [hk]; rfl
    have hmiss : alGet ((alGet db.hashes key).getD []) f = none := by rw [hH]; rfl
    rw [hIncrByDB_branch_new db key f n hmiss]
    unfold counterVal hGetDB
    rw [hH, hk]
    simp [alGet_alSet_self, alGet, decimalToInt_intToDecimal]
  | some h0 =>
    have hH : ((alGet db.hashes key).getD []) = h0 := by rw [hk]; rfl
    cases hf : alGet h0 f with
    | none =>
      have hmiss : alGet ((alGet db.hashes key).getD []) f = none := by rw [hH, hf]
      rw [hIncrByDB_branch_new db key f n hmiss]
      unfold counterVal hGetDB
      rw [hH, hk]
      simp [alGet_alSet_self, hf, decimalToInt_intToDecimal]
    | some old =>
      have hsome : (decimalToInt old).isSome = true := by
        unfold intFieldOk hGetDB at h
        rw [hk] at h
        simpa [hf] using h
      obtain ⟨o, ho⟩ := Option.isSome_iff_exists.mp hsome
      rw [hIncrByDB_branch_upd db key f n old o (by rw [hH, hf]) ho]
      unfold counterVal hGetDB
      rw [hH, hk]
      simp [alGet_alSet_self, hf, ho, decimalToInt_intToDecimal]

theorem hGetDB_hSetDB_self (db : RedisDB) (key f v : String) :
    hGetDB (hSetDB db key f v) key f = some v := by
  unfold hGetDB hSetDB
  simp [alGet_alSet_self]

theorem existsKeyDB_hSetDB_self (db : RedisDB) (key f v : String) :
    existsKeyDB (hSetDB db key f v) key = true := by
  unfold existsKeyDB hSetDB
  simp [alGet_alSet_self]

theorem hGetDB_expireDB (db : RedisDB) (k : String) (secs : Nat) (key f : String) :
    hGetDB (expireDB db k secs) key f = hGetDB db key f := rfl

theorem existsKeyDB_expireDB (db : RedisDB) (k : String) (secs : Nat) (key : String) :
    existsKeyDB (expireDB db k secs) key = existsKeyDB db key := rfl

theorem normalizeMetricValue_id (v : String) : RedisManager.normalizeMetricValue v = v := by
  simp [RedisManager.normalizeMetricValue]

theorem alGet_hGetAllDB (db : RedisDB) (k f : String) :
    alGet (hGetAllDB db k) f = hGetDB db k f := by
  unfold hGetAllDB hGetDB
  cases alGet db.hashes k <;> simp [alGet]

/-- C10: for all deployment keys `k1`, `k2`, the labels-hash key of `k1` is
never the clients-hash key of `k2` (the prefixes `deploymentKeyLabels:` and
`deploymentKeyClients:` differ), so a metrics write addressed to a labels
hash can never touch a clients hash. -/
theorem C10_labels_clients_disjoint :
    (∀ k1 k2 : String,
      Utilities.getDeploymentKeyLabelsHash k1 ≠ Utilities.getDeploymentKeyClientsHash k2) ∧
    (∀ (db : RedisDB) (k1 k2 : String) (f : Option String) (n : Int),
      alGet (hIncrByDB db (Utilities.getDeploymentKeyLabelsHash k1) f n).hashes
          (Utilities.getDeploymentKeyClientsHash k2) =
        alGet db.hashes (Utilities.getDeploymentKeyClientsHash k2)) := by
  refine ⟨labelsHash_ne_clientsHash, ?_⟩
  intro db k1 k2 f n
  exact hIncrByDB_other_key db _ f n _ (labelsHash_ne_clientsHash k1 k2)

/-- C2: an unrecognized status makes `Utilities.getLabelStatusField` return
no field, and `incrementLabelStatusCount` succeeds while leaving the state
untouched (the null-field increment is absorbed; modelled from the spec). -/
theorem C2_invalid_status_noop (s : RedisState) (deploymentKey label status : String)
    (hen : s.enabled = true) (h1 : status ≠ DEPLOYMENT_SUCCEEDED)
    (h2 : status ≠ DEPLOYMENT_FAILED) (h3 : status ≠ DOWNLOADED) :
    Utilities.getLabelStatusField label status = none ∧
    RedisManager.incrementLabelStatusCount s deploymentKey label status =
      ⟨.ok (), s, [.hIncrBy (Utilities.getDeploymentKeyLabelsHash deploymentKey) none 1]⟩ := by
  have hfield : Utilities.getLabelStatusField label status = none := by
    simp [Utilities.getLabelStatusField, Utilities.isValidDeploymentStatus, h1, h2, h3]
  refine ⟨hfield, ?_⟩
  obtain ⟨en, op, mp, od, md⟩ := s
  simp only at hen
  subst hen
  simp [RedisManager.incrementLabelStatusCount, hfield, hIncrByDB_none]

theorem C2_witness :
    Utilities.getLabelStatusField "v1" "Bogus" = none ∧
    RedisManager.incrementLabelStatusCount sampleEnabled "dk" "v1" "Bogus" =
      ⟨.ok (), sampleEnabled, [.hIncrBy (Utilities.getDeploymentKeyLabelsHash "dk") none 1]⟩ :=
  C2_invalid_status_noop sampleEnabled "dk" "v1" "Bogus" (by decide) (by decide) (by decide)
    (by decide)

/-- C6: `checkHealth` rejects with the explicit disabled signal in disabled
mode; in enabled mode it succeeds exactly when both the ops ping and the
metrics ping succeed. -/
theorem C6_checkHealth :
    (∀ s : RedisState, s.enabled = false →
      (RedisManager.checkHealth s).result = .error "Redis manager is not enabled" ∧
      (RedisManager.checkHealth s).trace = []) ∧
    (∀ s : RedisState, s.enabled = true →
      (isOkE (RedisManager.checkHealth s).result = true ↔
        isOkE s.opsPing = true ∧ isOkE s.metricsPing = true)) := by
  constructor
  · intro s hdis
    simp [RedisManager.checkHealth, hdis]
  · intro s hen
    simp only [RedisManager.checkHealth, hen, if_true]
    cases ho : s.opsPing <;> cases hm : s.metricsPing <;> simp [isOkE]

theorem C6_witness :
    (RedisManager.checkHealth sampleDisabled).result = .error "Redis manager is not enabled" ∧
    (isOkE (RedisManager.checkHealth sampleEnabled).result = true ↔
      isOkE sampleEnabled.opsPing = true ∧ isOkE sampleEnabled.metricsPing = true) :=
  ⟨(C6_checkHealth.1 sampleDisabled rfl).1, C6_checkHealth.2 sampleEnabled rfl⟩

/-- C7: in enabled mode `getMetricsWithDeploymentKey` returns the entire
labels hash as a field-to-string mapping (every stored decimal counter comes
back as its text form, unchanged); in disabled mode it returns `none`. -/
theorem C7_getMetrics :
    (∀ (s : RedisState) (dk : String), s.enabled = true →
      (RedisManager.getMetricsWithDeploymentKey s dk).result =
        .ok (some (hGetAllDB s.metricsDB (Utilities.getDeploymentKeyLabelsHash dk))) ∧
      (RedisManager.getMetricsWithDeploymentKey s dk).state = s) ∧
    (∀ (s : RedisState) (dk : String), s.enabled = false →
      (RedisManager.getMetricsWithDeploymentKey s dk).result = .ok none) ∧
    (∀ (s : RedisState) (dk field : String) (n : Int), s.enabled = true →
      hGetDB s.metricsDB (Utilities.getDeploymentKeyLabelsHash dk) field =
        some (intToDecimal n) →
      ∃ m, (RedisManager.getMetricsWithDeploymentKey s dk).result = .ok (some m) ∧
        alGet m field = some (intToDecimal n)) := by
  have hmap : ∀ (l : RedisHash),
      l.map (fun p => (p.1, RedisManager.normalizeMetricValue p.2)) = l := by
    intro l
    induction l with
    | nil => simp
    | cons hd t ih => simp [normalizeMetricValue_id, ih]
  refine ⟨?_, ?_, ?_⟩
  · intro s dk hen
    simp [RedisManager.getMetricsWithDeploymentKey, hen, hmap]
  · intro s dk hdis
    simp [RedisManager.getMetricsWithDeploymentKey, hdis]
  · intro s dk field n hen hstored
    refine ⟨hGetAllDB s.metricsDB (Utilities.getDeploymentKeyLabelsHash dk), ?_, ?_⟩
    · simp [RedisManager.getMetricsWithDeploymentKey, hen, hmap]
    · rw [alGet_hGetAllDB, hstored]

theorem C7_witness :
    ((RedisManager.getMetricsWithDeploymentKey sampleEnabled "dk").result =
      .ok (some (hGetAllDB sampleEnabled.metricsDB
        (Utilities.getDeploymentKeyLabelsHash "dk")))) ∧
    ((RedisManager.getMetricsWithDeploymentKey sampleDisabled "dk").result = .ok none) ∧
    (∃ m, (RedisManager.getMetricsWithDeploymentKey
        (RedisManager.recordUpdate sampleEnabled "abc123" "v2" none none).state "abc123").result =
          .ok (some m) ∧ alGet m "v2:Active" = some (intToDecimal 1)) :=
  ⟨(C7_getMetrics.1 sampleEnabled "dk" rfl).1,
   C7_getMetrics.2.1 sampleDisabled "dk" rfl,
   C7_getMetrics.2.2 (RedisManager.recordUpdate sampleEnabled "abc123" "v2" none none).state
     "abc123" "v2:Active" 1 rfl rfl⟩

/-- C8: in enabled mode `clearMetricsForDeploymentKey` deletes both the
labels hash and the clients hash in one `DEL`, and a subsequent
`getMetricsWithDeploymentKey` on the same key returns the empty mapping. -/
theorem C8_clearMetrics (s : RedisState) (dk : String) (hen : s.enabled = true) :
    (RedisManager.clearMetricsForDeploymentKey s dk).result = .ok () ∧
    (RedisManager.clearMetricsForDeploymentKey s dk).trace =
      [.del [Utilities.getDeploymentKeyLabelsHash dk,
             Utilities.getDeploymentKeyClientsHash dk]] ∧
    alGet (RedisManager.clearMetricsForDeploymentKey s dk).state.metricsDB.hashes
      (Utilities.getDeploymentKeyLabelsHash dk) = none ∧
    alGet (RedisManager.clearMetricsForDeploymentKey s dk).state.metricsDB.hashes
      (Utilities.getDeploymentKeyClientsHash dk) = none ∧
    (RedisManager.getMetricsWithDeploymentKey
      (RedisManager.clearMetricsForDeploymentKey s dk).state dk).result = .ok (some []) := by
  have hdel1 : alGet (RedisManager.clearMetricsForDeploymentKey s dk).state.metricsDB.hashes
      (Utilities.getDeploymentKeyLabelsHash dk) = none := by
    simp only [RedisManager.clearMetricsForDeploymentKey, hen, if_true]
    exact alGet_alDropKeys_removed _ _ _ (by simp)
  have hdel2 : alGet (RedisManager.clearMetricsForDeploymentKey s dk).state.metricsDB.hashes
      (Utilities.getDeploymentKeyClientsHash dk) = none := by
    simp only [RedisManager.clearMetricsForDeploymentKey, hen, if_true]
    exact alGet_alDropKeys_removed _ _ _ (by simp)
  refine ⟨by simp [RedisManager.clearMetricsForDeploymentKey, hen],
    by simp [RedisManager.clearMetricsForDeploymentKey, hen], hdel1, hdel2, ?_⟩
  have hen2 : (RedisManager.clearMetricsForDeploymentKey s dk).state.enabled = true := by
    simp [RedisManager.clearMetricsForDeploymentKey, hen]
  simp only [RedisManager.getMetricsWithDeploymentKey, hen2, if_true]
  simp [hGetAllDB, hdel1]

theorem C8_witness :
    (RedisManager.clearMetricsForDeploymentKey sampleEnabled "dk").result = .ok () ∧
    (RedisManager.clearMetricsForDeploymentKey sampleEnabled "dk").trace =
      [.del [Utilities.getDeploymentKeyLabelsHash "dk",
             Utilities.getDeploymentKeyClientsHash "dk"]] ∧
    alGet (RedisManager.clearMetricsForDeploymentKey sampleEnabled "dk").state.metricsDB.hashes
      (Utilities.getDeploymentKeyLabelsHash "dk") = none ∧
    alGet (RedisManager.clearMetricsForDeploymentKey sampleEnabled "dk").state.metricsDB.hashes
      (Utilities.getDeploymentKeyClientsHash "dk") = none ∧
    (RedisManager.getMetricsWithDeploymentKey
      (RedisManager.clearMetricsForDeploymentKey sampleEnabled "dk").state "dk").result =
        .ok (some []) :=
  C8_clearMetrics sampleEnabled "dk" rfl

theorem setCachedResponse_spec (s : RedisState) (k url : String) (r : CacheableResponse)
    (hen : s.enabled = true) :
    (RedisManager.setCachedResponse s k url r).trace =
      [.existsKey k, .hSet k url (Json.stringify (respToJson r))] ++
        (if existsKeyDB s.opsDB k then [] else [.expire k RedisManager.DEFAULT_EXPIRY]) ∧
    (RedisManager.setCachedResponse s k url r).state.opsDB.ttl =
      (if existsKeyDB s.opsDB k then s.opsDB.ttl
       else alSet s.opsDB.ttl k RedisManager.DEFAULT_EXPIRY) ∧
    (RedisManager.setCachedResponse s k url r).state.enabled = true ∧
    existsKeyDB (RedisManager.setCachedResponse s k url r).state.opsDB k = true := by
  by_cases he : existsKeyDB s.opsDB k
  · refine ⟨by simp [RedisManager.setCachedResponse, hen, he],
      by simp [RedisManager.setCachedResponse, hen, he, hSetDB],
      by simp [RedisManager.setCachedResponse, hen], ?_⟩
    simp only [RedisManager.setCachedResponse, hen, if_true, he, Bool.not_true, if_false]
    exact existsKeyDB_hSetDB_self s.opsDB k url _
  · refine ⟨by simp [RedisManager.setCachedResponse, hen, he],
      by simp [RedisManager.setCachedResponse, hen, he, hSetDB, expireDB],
      by simp [RedisManager.setCachedResponse, hen], ?_⟩
    simp only [RedisManager.setCachedResponse, hen, if_true, he, Bool.not_false, if_true]
    rw [existsKeyDB_expireDB]
    exact existsKeyDB_hSetDB_self s.opsDB k url _

/-- C3: `setCachedResponse` issues the existence check before the field
write and applies the TTL exactly when the collection did not exist before
the write; two sequential writes of different urls under a brand-new
expiry key invoke the expiry primitive exactly once. -/
theorem C3_ttl_iff_new_key :
    (∀ (s : RedisState) (k url : String) (r : CacheableResponse), s.enabled = true →
      (RedisManager.setCachedResponse s k url r).trace =
        [.existsKey k, .hSet k url (Json.stringify (respToJson r))] ++
          (if existsKeyDB s.opsDB k then [] else [.expire k RedisManager.DEFAULT_EXPIRY]) ∧
      (RedisManager.setCachedResponse s k url r).state.opsDB.ttl =
        (if existsKeyDB s.opsDB k then s.opsDB.ttl
         else alSet s.opsDB.ttl k RedisManager.DEFAULT_EXPIRY)) ∧
    (∀ (s : RedisState) (k u1 u2 : String) (r1 r2 : CacheableResponse), s.enabled = true →
      u1 ≠ u2 → existsKeyDB s.opsDB k = false →
      countExpire ((RedisManager.setCachedResponse s k u1 r1).trace ++
        (RedisManager.setCachedResponse
          (RedisManager.setCachedResponse s k u1 r1).state k u2 r2).trace) = 1) := by
  constructor
  · intro s k url r hen
    exact ⟨(setCachedResponse_spec s k url r hen).1, (setCachedResponse_spec s k url r hen).2.1⟩
  · intro s k u1 u2 r1 r2 hen hurl he
    obtain ⟨ht1, _, hen1, hex1⟩ := setCachedResponse_spec s k u1 r1 hen
    obtain ⟨ht2, _, _, _⟩ :=
      setCachedResponse_spec (RedisManager.setCachedResponse s k u1 r1).state k u2 r2 hen1
    rw [he] at ht1
    rw [hex1] at ht2
    simp only [if_false, if_true] at ht1 ht2
    rw [ht1, ht2]
    simp [countExpire, List.filter]

theorem C3_witness :
    ((RedisManager.setCachedResponse sampleEnabled "exp" "u1" ⟨200, .null⟩).trace =
      [.existsKey "exp", .hSet "exp" "u1" (Json.stringify (respToJson ⟨200, .null⟩))] ++
        (if existsKeyDB sampleEnabled.opsDB "exp" then []
         else [.expire "exp" RedisManager.DEFAULT_EXPIRY])) ∧
    (countExpire ((RedisManager.setCachedResponse sampleEnabled "exp" "u1" ⟨200, .null⟩).trace ++
      (RedisManager.setCachedResponse
        (RedisManager.setCachedResponse sampleEnabled "exp" "u1" ⟨200, .null⟩).state
        "exp" "u2" ⟨404, .null⟩).trace) = 1) :=
  ⟨(C3_ttl_iff_new_key.1 sampleEnabled "exp" "u1" ⟨200, .null⟩ rfl).1,
   C3_ttl_iff_new_key.2 sampleEnabled "exp" "u1" "u2" ⟨200, .null⟩ ⟨404, .null⟩ rfl
     (by decide) rfl⟩

/-- C9: when the previous deployment/label pair is not fully supplied
(either component missing or the empty string), the batch is exactly the
two increments on the current deployment key's labels hash (fields as
computed by the `Utilities` helpers), the batch is issued as one atomic
unit, and no store key other than the current labels hash changes. -/
theorem C9_recordUpdate_no_previous (s : RedisState) (ck cl : String)
    (pk pl : Option String) (hen : s.enabled = true)
    (hprev : (RedisManager.jsTruthy pk && RedisManager.jsTruthy pl) = false) :
    RedisManager.recordUpdateBatch ck cl pk pl =
      [.hIncrBy (Utilities.getDeploymentKeyLabelsHash ck)
         (Utilities.getLabelActiveCountField cl) 1,
       .hIncrBy (Utilities.getDeploymentKeyLabelsHash ck)
         (Utilities.getLabelStatusField cl DEPLOYMENT_SUCCEEDED) 1] ∧
    (RedisManager.recordUpdate s ck cl pk pl).trace =
      [.multi (RedisManager.recordUpdateBatch ck cl pk pl)] ∧
    (RedisManager.recordUpdate s ck cl pk pl).result = .ok () ∧
    (RedisManager.recordUpdate s ck cl pk pl).state.opsDB = s.opsDB ∧
    (∀ key, key ≠ Utilities.getDeploymentKeyLabelsHash ck →
      alGet (RedisManager.recordUpdate s ck cl pk pl).state.metricsDB.hashes key =
        alGet s.metricsDB.hashes key) := by
  have hbatch : RedisManager.recordUpdateBatch ck cl pk pl =
      [.hIncrBy (Utilities.getDeploymentKeyLabelsHash ck)
         (Utilities.getLabelActiveCountField cl) 1,
       .hIncrBy (Utilities.getDeploymentKeyLabelsHash ck)
         (Utilities.getLabelStatusField cl DEPLOYMENT_SUCCEEDED) 1] := by
    simp [RedisManager.recordUpdateBatch, hprev]
  refine ⟨hbatch, by simp [RedisManager.recordUpdate, hen],
    by simp [RedisManager.recordUpdate, hen],
    by simp [RedisManager.recordUpdate, hen], ?_⟩
  intro key hkey
  simp only [RedisManager.recordUpdate, hen, if_true]
  rw [hbatch]
  simp only [execBatch, List.foldl, applyCmd]
  rw [hIncrByDB_other_key _ _ _ _ _ (Ne.symm hkey),
      hIncrByDB_other_key _ _ _ _ _ (Ne.symm hkey)]

theorem C9_witness :
    RedisManager.recordUpdateBatch "abc123" "v2" (some "") (some "v1") =
      [.hIncrBy (Utilities.getDeploymentKeyLabelsHash "abc123")
         (Utilities.getLabelActiveCountField "v2") 1,
       .hIncrBy (Utilities.getDeploymentKeyLabelsHash "abc123")
         (Utilities.getLabelStatusField "v2" DEPLOYMENT_SUCCEEDED) 1] ∧
    (RedisManager.recordUpdate sampleEnabled "abc123" "v2" (some "") (some "v1")).trace =
      [.multi (RedisManager.recordUpdateBatch "abc123" "v2" (some "") (some "v1"))] ∧
    (RedisManager.recordUpdate sampleEnabled "abc123" "v2" (some "") (some "v1")).result =
      .ok () ∧
    (RedisManager.recordUpdate sampleEnabled "abc123" "v2"
      (some "") (some "v1")).state.opsDB = sampleEnabled.opsDB ∧
    (∀ key, key ≠ Utilities.getDeploymentKeyLabelsHash "abc123" →
      alGet (RedisManager.recordUpdate sampleEnabled "abc123" "v2"
        (some "") (some "v1")).state.metricsDB.hashes key =
        alGet sampleEnabled.metricsDB.hashes key) :=
  C9_recordUpdate_no_previous sampleEnabled "abc123" "v2" (some "") (some "v1") rfl (by decide)

/-- C5 counterexample: in disabled mode `checkHealth` does not resolve
successfully (it rejects with the disabled signal), so the claim that every
public operation, including `checkHealth`, resolves successfully is false. -/
theorem C5_counterexample :
    isOkE (RedisManager.checkHealth sampleDisabled).result = false ∧
    (RedisManager.checkHealth sampleDisabled).result =
      .error "Redis manager is not enabled" := ⟨rfl, rfl⟩

/-- C5 (amended): in disabled mode every public operation except
`checkHealth` resolves successfully with its documented disabled result,
leaves the state unchanged and issues zero store commands; `checkHealth`
also issues zero store commands but rejects with the disabled signal. -/
theorem C5_disabled_amended (s : RedisState) (hdis : s.enabled = false) :
    (∀ k url, RedisManager.getCachedResponse s k url = ⟨.ok none, s, []⟩) ∧
    (∀ k url r, RedisManager.setCachedResponse s k url r = ⟨.ok (), s, []⟩) ∧
    (∀ k, RedisManager.invalidateCache s k = ⟨.ok (), s, []⟩) ∧
    (∀ dk l st, RedisManager.incrementLabelStatusCount s dk l st = ⟨.ok (), s, []⟩) ∧
    (∀ dk, RedisManager.clearMetricsForDeploymentKey s dk = ⟨.ok (), s, []⟩) ∧
    (∀ dk, RedisManager.getMetricsWithDeploymentKey s dk = ⟨.ok none, s, []⟩) ∧
    (∀ ck cl pk pl, RedisManager.recordUpdate s ck cl pk pl = ⟨.ok (), s, []⟩) ∧
    (∀ dk cid, RedisManager.removeDeploymentKeyClientActiveLabel s dk cid = ⟨.ok (), s, []⟩) ∧
    (∀ dk cid, RedisManager.getCurrentActiveLabel s dk cid = ⟨.ok none, s, []⟩) ∧
    (∀ dk cid tl fl, RedisManager.updateActiveAppForClient s dk cid tl fl = ⟨.ok (), s, []⟩) ∧
    RedisManager.close s = ⟨.ok (), s, []⟩ ∧
    RedisManager.isEnabled s = false ∧
    RedisManager.checkHealth s = ⟨.error "Redis manager is not enabled", s, []⟩ := by
  refine ⟨?_, ?_, ?_, ?_, ?_, ?_, ?_, ?_, ?_, ?_, ?_, ?_, ?_⟩ <;>
    simp [RedisManager.getCachedResponse, RedisManager.setCachedResponse,
      RedisManager.invalidateCache, RedisManager.incrementLabelStatusCount,
      RedisManager.clearMetricsForDeploymentKey, RedisManager.getMetricsWithDeploymentKey,
      RedisManager.recordUpdate, RedisManager.removeDeploymentKeyClientActiveLabel,
      RedisManager.getCurrentActiveLabel, RedisManager.updateActiveAppForClient,
      RedisManager.close, RedisManager.isEnabled, RedisManager.checkHealth, hdis]

theorem C5_witness :
    RedisManager.getCachedResponse sampleDisabled "k" "u" = ⟨.ok none, sampleDisabled, []⟩ ∧
    RedisManager.getMetricsWithDeploymentKey sampleDisabled "dk" =
      ⟨.ok none, sampleDisabled, []⟩ ∧
    RedisManager.checkHealth sampleDisabled =
      ⟨.error "Redis manager is not enabled", sampleDisabled, []⟩ :=
  ⟨(C5_disabled_amended sampleDisabled rfl).1 "k" "u",
   (C5_disabled_amended sampleDisabled rfl).2.2.2.2.2.1 "dk",
   (C5_disabled_amended sampleDisabled rfl).2.2.2.2.2.2.2.2.2.2.2.2⟩

/-- C4: in enabled mode, `setCachedResponse` followed by
`getCachedResponse` on the same `(expiryKey, url)` succeeds and returns
exactly the JSON object of the stored response (structural equality). -/
theorem C4_cache_round_trip (s : RedisState) (expiryKey url : String)
    (r : CacheableResponse) (hen : s.enabled = true) :
    (RedisManager.setCachedResponse s expiryKey url r).result = .ok () ∧
    (RedisManager.getCachedResponse (RedisManager.setCachedResponse s expiryKey url r).state
      expiryKey url).result = .ok (some (respToJson r)) := by
  refine ⟨by simp [RedisManager.setCachedResponse, hen], ?_⟩
  have hser : hGetDB (RedisManager.setCachedResponse s expiryKey url r).state.opsDB
      expiryKey url = some (Json.stringify (respToJson r)) := by
    simp only [RedisManager.setCachedResponse, hen, if_true]
    by_cases he : existsKeyDB s.opsDB expiryKey
    · simp only [he, Bool.not_true, if_false]
      exact hGetDB_hSetDB_self s.opsDB expiryKey url _
    · simp only [he, Bool.not_false, if_true]
      rw [hGetDB_expireDB]
      exact hGetDB_hSetDB_self s.opsDB expiryKey url _
  have hne : Json.stringify (respToJson r) ≠ "" := Json.stringify_obj_ne_empty _
  have hen2 : (RedisManager.setCachedResponse s expiryKey url r).state.enabled = true := by
    simp [RedisManager.setCachedResponse, hen]
  simp only [RedisManager.getCachedResponse, hen2, if_true, hser]
  simp [hne, Json.parse_stringify]

theorem C4_witness :
    (RedisManager.setCachedResponse sampleEnabled "exp" "u"
      ⟨200, .jstr "body"⟩).result = .ok () ∧
    (RedisManager.getCachedResponse
      (RedisManager.setCachedResponse sampleEnabled "exp" "u" ⟨200, .jstr "body"⟩).state
      "exp" "u").result = .ok (some (respToJson ⟨200, .jstr "body"⟩)) :=
  C4_cache_round_trip sampleEnabled "exp" "u" ⟨200, .jstr "body"⟩ rfl

theorem counterVal_hIncrByDB_other_key (db : RedisDB) (K : String) (f : Option String)
    (n : Int) (K' f' : String) (h : K ≠ K') :
    counterVal (hIncrByDB db K f n) K' f' = counterVal db K' f' := by
  unfold counterVal hGetDB
  rw [hIncrByDB_other_key db K f n K' h]

theorem counterVal_hIncrByDB_other_field (db : RedisDB) (K f : String) (n : Int)
    (f' : String) (h : f' ≠ f) :
    counterVal (hIncrByDB db K (some f) n) K f' = counterVal db K f' := by
  unfold counterVal
  rw [hGetDB_hIncrByDB_other_field db K f n f' h]

theorem intFieldOk_hIncrByDB_other_key (db : RedisDB) (K : String) (f : Option String)
    (n : Int) (K' f' : String) (h : K ≠ K') :
    intFieldOk (hIncrByDB db K f n) K' f' = intFieldOk db K' f' := by
  unfold intFieldOk hGetDB
  rw [hIncrByDB_other_key db K f n K' h]

theorem intFieldOk_hIncrByDB_other_field (db : RedisDB) (K f : String) (n : Int)
    (f' : String) (h : f' ≠ f) :
    intFieldOk (hIncrByDB db K (some f) n) K f' = intFieldOk db K f' := by
  unfold intFieldOk
  rw [hGetDB_hIncrByDB_other_field db K f n f' h]

theorem fields_ne (label : String) {a b : String} (hab : a ≠ b) :
    label ++ ":" ++ a ≠ label ++ ":" ++ b :=
  fun h => hab (strAppend_left_cancel h)

/-- C1 counterexample: `recordUpdate("abc123", "")` does not increment the
field `":Active"` (the empty current label makes
`Utilities.getLabelActiveCountField` return no field, so that increment of
the batch is absorbed), although the `":DeploymentSucceeded"` increment does
happen; the claim as stated, quantifying over every call, is false. -/
theorem C1_counterexample :
    (RedisManager.recordUpdate sampleEnabled "abc123" "" none none).result = .ok () ∧
    hGetDB (RedisManager.recordUpdate sampleEnabled "abc123" "" none none).state.metricsDB
      (Utilities.getDeploymentKeyLabelsHash "abc123") ":Active" = none ∧
    hGetDB (RedisManager.recordUpdate sampleEnabled "abc123" "" none none).state.metricsDB
      (Utilities.getDeploymentKeyLabelsHash "abc123") ":DeploymentSucceeded" = some "1" :=
  ⟨rfl, rfl, rfl⟩

/-- C1 (amended): for every `recordUpdate` call in enabled mode with a
nonempty current label, the operation issues one atomic batch of exactly
the two increments on the current labels hash plus, when a previous
deployment/label pair is supplied (both nonempty), the decrement on the
previous labels hash; on integer-valued (or absent) counter fields and
distinct deployment keys the counters change by exactly +1, +1 and -1;
and the concrete scenario: three calls of `recordUpdate "abc123" "v2"`
followed by `getMetricsWithDeploymentKey "abc123"` report
`v2:Active = "3"` and `v2:DeploymentSucceeded = "3"`. -/
theorem C1_recordUpdate_amended :
    (∀ (s : RedisState) (ck cl pkv plv : String), s.enabled = true → cl ≠ "" →
      pkv ≠ "" → plv ≠ "" → pkv ≠ ck →
      intFieldOk s.metricsDB (Utilities.getDeploymentKeyLabelsHash ck)
        (cl ++ ":" ++ ACTIVE) = true →
      intFieldOk s.metricsDB (Utilities.getDeploymentKeyLabelsHash ck)
        (cl ++ ":" ++ DEPLOYMENT_SUCCEEDED) = true →
      intFieldOk s.metricsDB (Utilities.getDeploymentKeyLabelsHash pkv)
        (plv ++ ":" ++ ACTIVE) = true →
      RedisManager.recordUpdateBatch ck cl (some pkv) (some plv) =
        [.hIncrBy (Utilities.getDeploymentKeyLabelsHash ck) (some (cl ++ ":" ++ ACTIVE)) 1,
         .hIncrBy (Utilities.getDeploymentKeyLabelsHash ck)
           (some (cl ++ ":" ++ DEPLOYMENT_SUCCEEDED)) 1,
         .hIncrBy (Utilities.getDeploymentKeyLabelsHash pkv)
           (some (plv ++ ":" ++ ACTIVE)) (-1)] ∧
      (RedisManager.recordUpdate s ck cl (some pkv) (some plv)).trace =
        [.multi (RedisManager.recordUpdateBatch ck cl (some pkv) (some plv))] ∧
      (RedisManager.recordUpdate s ck cl (some pkv) (some plv)).result = .ok () ∧
      counterVal (RedisManager.recordUpdate s ck cl (some pkv) (some plv)).state.metricsDB
          (Utilities.getDeploymentKeyLabelsHash ck) (cl ++ ":" ++ ACTIVE) =
        counterVal s.metricsDB (Utilities.getDeploymentKeyLabelsHash ck)
          (cl ++ ":" ++ ACTIVE) + 1 ∧
      counterVal (RedisManager.recordUpdate s ck cl (some pkv) (some plv)).state.metricsDB
          (Utilities.getDeploymentKeyLabelsHash ck) (cl ++ ":" ++ DEPLOYMENT_SUCCEEDED) =
        counterVal s.metricsDB (Utilities.getDeploymentKeyLabelsHash ck)
          (cl ++ ":" ++ DEPLOYMENT_SUCCEEDED) + 1 ∧
      counterVal (RedisManager.recordUpdate s ck cl (some pkv) (some plv)).state.metricsDB
          (Utilities.getDeploymentKeyLabelsHash pkv) (plv ++ ":" ++ ACTIVE) =
        counterVal s.metricsDB (Utilities.getDeploymentKeyLabelsHash pkv)
          (plv ++ ":" ++ ACTIVE) - 1) ∧
    (∀ (s : RedisState) (ck cl : String), s.enabled = true → cl ≠ "" →
      intFieldOk s.metricsDB (Utilities.getDeploymentKeyLabelsHash ck)
        (cl ++ ":" ++ ACTIVE) = true →
      intFieldOk s.metricsDB (Utilities.getDeploymentKeyLabelsHash ck)
        (cl ++ ":" ++ DEPLOYMENT_SUCCEEDED) = true →
      RedisManager.recordUpdateBatch ck cl none none =
        [.hIncrBy (Utilities.getDeploymentKeyLabelsHash ck) (some (cl ++ ":" ++ ACTIVE)) 1,
         .hIncrBy (Utilities.getDeploymentKeyLabelsHash ck)
           (some (cl ++ ":" ++ DEPLOYMENT_SUCCEEDED)) 1] ∧
      (RedisManager.recordUpdate s ck cl none none).trace =
        [.multi (RedisManager.recordUpdateBatch ck cl none none)] ∧
      counterVal (RedisManager.recordUpdate s ck cl none none).state.metricsDB
          (Utilities.getDeploymentKeyLabelsHash ck) (cl ++ ":" ++ ACTIVE) =
        counterVal s.metricsDB (Utilities.getDeploymentKeyLabelsHash ck)
          (cl ++ ":" ++ ACTIVE) + 1 ∧
      counterVal (RedisManager.recordUpdate s ck cl none none).state.metricsDB
          (Utilities.getDeploymentKeyLabelsHash ck) (cl ++ ":" ++ DEPLOYMENT_SUCCEEDED) =
        counterVal s.metricsDB (Utilities.getDeploymentKeyLabelsHash ck)
          (cl ++ ":" ++ DEPLOYMENT_SUCCEEDED) + 1) ∧
    (RedisManager.getMetricsWithDeploymentKey
      (RedisManager.recordUpdate
        (RedisManager.recordUpdate
          (RedisManager.recordUpdate sampleEnabled "abc123" "v2" none none).state
          "abc123" "v2" none none).state
        "abc123" "v2" none none).state "abc123").result =
      .ok (some [("v2:Active", "3"), ("v2:DeploymentSucceeded", "3")]) := by
  have hAS : ∀ cl : String, cl ++ ":" ++ ACTIVE ≠ cl ++ ":" ++ DEPLOYMENT_SUCCEEDED :=
    fun cl => fields_ne cl (by decide)
  have hSA : ∀ cl : String, cl ++ ":" ++ DEPLOYMENT_SUCCEEDED ≠ cl ++ ":" ++ ACTIVE :=
    fun cl => fields_ne cl (by decide)
  refine ⟨?_, ?_, rfl⟩
  · intro s ck cl pkv plv hen hcl hpk hpl hpkck hA hS hP
    have hKK : Utilities.getDeploymentKeyLabelsHash pkv ≠
        Utilities.getDeploymentKeyLabelsHash ck := fun h => hpkck (labelsHash_inj h)
    have hbatch : RedisManager.recordUpdateBatch ck cl (some pkv) (some plv) =
        [.hIncrBy (Utilities.getDeploymentKeyLabelsHash ck) (some (cl ++ ":" ++ ACTIVE)) 1,
         .hIncrBy (Utilities.getDeploymentKeyLabelsHash ck)
           (some (cl ++ ":" ++ DEPLOYMENT_SUCCEEDED)) 1,
         .hIncrBy (Utilities.getDeploymentKeyLabelsHash pkv)
           (some (plv ++ ":" ++ ACTIVE)) (-1)] := by
      simp [RedisManager.recordUpdateBatch, RedisManager.jsTruthy, hpk, hpl, hcl, hpl,
        Utilities.getLabelActiveCountField, Utilities.getLabelStatusField,
        Utilities.isValidDeploymentStatus]
    have hdb : (RedisManager.recordUpdate s ck cl (some pkv) (some plv)).state.metricsDB =
        hIncrByDB (hIncrByDB (hIncrByDB s.metricsDB
            (Utilities.getDeploymentKeyLabelsHash ck) (some (cl ++ ":" ++ ACTIVE)) 1)
          (Utilities.getDeploymentKeyLabelsHash ck)
            (some (cl ++ ":" ++ DEPLOYMENT_SUCCEEDED)) 1)
          (Utilities.getDeploymentKeyLabelsHash pkv) (some (plv ++ ":" ++ ACTIVE)) (-1) := by
      simp only [RedisManager.recordUpdate, hen, if_true]
      rw [hbatch]
      simp [execBatch, applyCmd]
    refine ⟨hbatch, by simp [RedisManager.recordUpdate, hen],
      by simp [RedisManager.recordUpdate, hen], ?_, ?_, ?_⟩
    · rw [hdb]
      rw [counterVal_hIncrByDB_other_key _ _ _ _ _ _ hKK]
      rw [counterVal_hIncrByDB_other_field _ _ _ _ _ (hAS cl)]
      exact hIncrByDB_counter _ _ _ _ hA
    · rw [hdb]
      rw [counterVal_hIncrByDB_other_key _ _ _ _ _ _ hKK]
      rw [show counterVal (hIncrByDB (hIncrByDB s.metricsDB
          (Utilities.getDeploymentKeyLabelsHash ck) (some (cl ++ ":" ++ ACTIVE)) 1)
            (Utilities.getDeploymentKeyLabelsHash ck)
            (some (cl ++ ":" ++ DEPLOYMENT_SUCCEEDED)) 1)
          (Utilities.getDeploymentKeyLabelsHash ck) (cl ++ ":" ++ DEPLOYMENT_SUCCEEDED) =
          counterVal (hIncrByDB s.metricsDB (Utilities.getDeploymentKeyLabelsHash ck)
            (some (cl ++ ":" ++ ACTIVE)) 1) (Utilities.getDeploymentKeyLabelsHash ck)
            (cl ++ ":" ++ DEPLOYMENT_SUCCEEDED) + 1 from
        hIncrByDB_counter _ _ _ _ (by
          rw [intFieldOk_hIncrByDB_other_field _ _ _ _ _ (hSA cl)]
          exact hS)]
      rw [counterVal_hIncrByDB_other_field _ _ _ _ _ (hSA cl)]
    · rw [hdb]
      have hstep : counterVal (hIncrByDB (hIncrByDB (hIncrByDB s.metricsDB
            (Utilities.getDeploymentKeyLabelsHash ck) (some (cl ++ ":" ++ ACTIVE)) 1)
          (Utilities.getDeploymentKeyLabelsHash ck)
            (some (cl ++ ":" ++ DEPLOYMENT_SUCCEEDED)) 1)
          (Utilities.getDeploymentKeyLabelsHash pkv) (some (plv ++ ":" ++ ACTIVE)) (-1))
          (Utilities.getDeploymentKeyLabelsHash pkv) (plv ++ ":" ++ ACTIVE) =
          counterVal (hIncrByDB (hIncrByDB s.metricsDB
            (Utilities.getDeploymentKeyLabelsHash ck) (some (cl ++ ":" ++ ACTIVE)) 1)
          (Utilities.getDeploymentKeyLabelsHash ck)
            (some (cl ++ ":" ++ DEPLOYMENT_SUCCEEDED)) 1)
          (Utilities.getDeploymentKeyLabelsHash pkv) (plv ++ ":" ++ ACTIVE) + (-1) := by
        apply hIncrByDB_counter
        rw [intFieldOk_hIncrByDB_other_key _ _ _ _ _ _ (Ne.symm hKK),
            intFieldOk_hIncrByDB_other_key _ _ _ _ _ _ (Ne.symm hKK)]
        exact hP
      rw [hstep]
      rw [counterVal_hIncrByDB_other_key _ _ _ _ _ _ (Ne.symm hKK),
          counterVal_hIncrByDB_other_key _ _ _ _ _ _ (Ne.symm hKK)]
      omega
  · intro s ck cl hen hcl hA hS
    have hbatch : RedisManager.recordUpdateBatch ck cl none none =
        [.hIncrBy (Utilities.getDeploymentKeyLabelsHash ck) (some (cl ++ ":" ++ ACTIVE)) 1,
         .hIncrBy (Utilities.getDeploymentKeyLabelsHash ck)
           (some (cl ++ ":" ++ DEPLOYMENT_SUCCEEDED)) 1] := by
      simp [RedisManager.recordUpdateBatch, RedisManager.jsTruthy, hcl,
        Utilities.getLabelActiveCountField, Utilities.getLabelStatusField,
        Utilities.isValidDeploymentStatus]
    have hdb : (RedisManager.recordUpdate s ck cl none none).state.metricsDB =
        hIncrByDB (hIncrByDB s.metricsDB
            (Utilities.getDeploymentKeyLabelsHash ck) (some (cl ++ ":" ++ ACTIVE)) 1)
          (Utilities.getDeploymentKeyLabelsHash ck)
            (some (cl ++ ":" ++ DEPLOYMENT_SUCCEEDED)) 1 := by
      simp only [RedisManager.recordUpdate, hen, if_true]
      rw [hbatch]
      simp [execBatch, applyCmd]
    refine ⟨hbatch, by simp [RedisManager.recordUpdate, hen], ?_, ?_⟩
    · rw [hdb]
      rw [counterVal_hIncrByDB_other_field _ _ _ _ _ (hAS cl)]
      exact hIncrByDB_counter _ _ _ _ hA
    · rw [hdb]
      have hstep := hIncrByDB_counter (hIncrByDB s.metricsDB
          (Utilities.getDeploymentKeyLabelsHash ck) (some (cl ++ ":" ++ ACTIVE)) 1)
        (Utilities.getDeploymentKeyLabelsHash ck) (cl ++ ":" ++ DEPLOYMENT_SUCCEEDED) 1
        (by rw [intFieldOk_hIncrByDB_other_field _ _ _ _ _ (hSA cl)]; exact hS)
      rw [hstep]
      rw [counterVal_hIncrByDB_other_field _ _ _ _ _ (hSA cl)]

theorem C1_witness :
    (RedisManager.recordUpdateBatch "abc123" "v2" (some "def456") (some "v1") =
      [.hIncrBy (Utilities.getDeploymentKeyLabelsHash "abc123")
         (some ("v2" ++ ":" ++ ACTIVE)) 1,
       .hIncrBy (Utilities.getDeploymentKeyLabelsHash "abc123")
         (some ("v2" ++ ":" ++ DEPLOYMENT_SUCCEEDED)) 1,
       .hIncrBy (Utilities.getDeploymentKeyLabelsHash "def456")
         (some ("v1" ++ ":" ++ ACTIVE)) (-1)] ∧
     (RedisManager.recordUpdate sampleEnabled "abc123" "v2"
        (some "def456") (some "v1")).trace =
       [.multi (RedisManager.recordUpdateBatch "abc123" "v2" (some "def456") (some "v1"))] ∧
     (RedisManager.recordUpdate sampleEnabled "abc123" "v2"
        (some "def456") (some "v1")).result = .ok () ∧
     counterVal (RedisManager.recordUpdate sampleEnabled "abc123" "v2"
         (some "def456") (some "v1")).state.metricsDB
         (Utilities.getDeploymentKeyLabelsHash "abc123") ("v2" ++ ":" ++ ACTIVE) =
       counterVal sampleEnabled.metricsDB
         (Utilities.getDeploymentKeyLabelsHash "abc123") ("v2" ++ ":" ++ ACTIVE) + 1 ∧
     counterVal (RedisManager.recordUpdate sampleEnabled "abc123" "v2"
         (some "def456") (some "v1")).state.metricsDB
         (Utilities.getDeploymentKeyLabelsHash "abc123")
         ("v2" ++ ":" ++ DEPLOYMENT_SUCCEEDED) =
       counterVal sampleEnabled.metricsDB (Utilities.getDeploymentKeyLabelsHash "abc123")
         ("v2" ++ ":" ++ DEPLOYMENT_SUCCEEDED) + 1 ∧
     counterVal (RedisManager.recordUpdate sampleEnabled "abc123" "v2"
         (some "def456") (some "v1")).state.metricsDB
         (Utilities.getDeploymentKeyLabelsHash "def456") ("v1" ++ ":" ++ ACTIVE) =
       counterVal sampleEnabled.metricsDB (Utilities.getDeploymentKeyLabelsHash "def456")
         ("v1" ++ ":" ++ ACTIVE) - 1) :=
  C1_recordUpdate_amended.1 sampleEnabled "abc123" "v2" "def456" "v1" rfl (by decide)
    (by decide) (by decide) (by decide) rfl rfl rfl
